import Mathlib

/-!
Verification of the authorization and relationship-consistency layer of the
E-Learning-Platform repository (Express + Mongoose backend), against its
natural-language specification.

The backend is shallowly embedded: each Mongoose collection becomes an
association list from numeric identifiers to documents, each controller
becomes a pure function from a database state (and the acting principal)
to a response paired with the next state.  MongoDB ObjectId generation is
modelled by choosing an identifier strictly larger than every identifier
occurring anywhere in the state, reflecting the fact that generated
ObjectIds never collide with any identifier already present.
-/

namespace ELearn

/-- Roles of the user schema enum, src/unnamed/part_001 lines 74-78. -/
inductive Role where
  | student
  | instructor
  | admin
deriving DecidableEq, Repr

/-- Course difficulty levels, src/backend/models/Course.js lines 86-90. -/
inductive Level where
  | debutant
  | intermediaire
  | avance
deriving DecidableEq, Repr

/-- Password values.  bcrypt hashing with a fresh salt is modelled as the
free constructor `hashed`: hashing any value yields a value distinct from
every previously existing one. -/
inductive PwVal where
  | plain (s : String)
  | hashed (v : PwVal)
deriving DecidableEq, Repr

/-- bcrypt.hash (with the salt abstracted away). -/
def bcryptHash (v : PwVal) : PwVal := PwVal.hashed v

/-- The deployment JWT secret (process.env.JWT_SECRET), an opaque constant. -/
def jwtSecret : String := "JWT_SECRET"

/-- A signed JWT as produced by jwt.sign: payload id, signing secret,
and whether its expiry has passed. -/
structure Tok where
  userId : Nat
  secret : String
  expired : Bool
deriving DecidableEq, Repr

/-- generateToken, src/unnamed/part_006 lines 404-410: signs the account id
with the deployment secret; freshly issued tokens are not expired. -/
def generateToken (id : Nat) : Tok :=
  { userId := id, secret := jwtSecret, expired := false }

/-- jwt.verify: succeeds iff the signature matches the secret and the token
has not expired, returning the payload id. -/
def jwtVerify (secret : String) (t : Tok) : Option Nat :=
  if t.secret = secret && !t.expired then some t.userId else none

/-- User document, src/unnamed/part_001 (userSchema). -/
structure UserDoc where
  email : String
  password : PwVal
  role : Role
  profile : Option Nat
  enrolledCourses : List Nat
deriving DecidableEq, Repr

/-- Profile document, src/backend/models/Profile.js (fields used by the
registration flow). -/
structure ProfileDoc where
  user : Nat
  firstName : String
  lastName : String
deriving DecidableEq, Repr

/-- Course document, src/backend/models/Course.js (courseSchema). -/
structure CourseDoc where
  title : String
  description : String
  price : Int
  image : String
  level : Level
  duration : Int
  instructor : Nat
  categories : List Nat
  enrolledStudents : List Nat
  isPublished : Bool
deriving DecidableEq, Repr

/-- Category document, src/unnamed/part_000 (categorySchema). -/
structure CategoryDoc where
  name : String
  description : String
  courses : List Nat
deriving DecidableEq, Repr

/-- The persistent store: one association list per collection. -/
structure DB where
  users : List (Nat × UserDoc)
  profiles : List (Nat × ProfileDoc)
  courses : List (Nat × CourseDoc)
  categories : List (Nat × CategoryDoc)
deriving DecidableEq, Repr

/-- The empty database. -/
def initDB : DB := { users := [], profiles := [], courses := [], categories := [] }

/-! ### Association-list primitives (Model.findById and friends) -/

/-- findById: the first document stored under the identifier. -/
def lookup (l : List (Nat × α)) (i : Nat) : Option α :=
  (l.find? (fun p => p.1 == i)).map (fun p => p.2)

/-- Persisting a loaded document with document.save / findByIdAndUpdate:
every entry stored under the identifier is replaced. -/
def setById (l : List (Nat × α)) (i : Nat) (d : α) : List (Nat × α) :=
  l.map (fun p => if p.1 = i then (i, d) else p)

/-- findByIdAndDelete: removes every entry stored under the identifier. -/
def removeById (l : List (Nat × α)) (i : Nat) : List (Nat × α) :=
  l.filter (fun p => p.1 ≠ i)

/-- Model.updateMany: applies `f` to every document whose key and value
satisfy the filter `P`. -/
def updateWhere (l : List (Nat × α)) (P : Nat → α → Bool) (f : α → α) :
    List (Nat × α) :=
  l.map (fun p => if P p.1 p.2 then (p.1, f p.2) else p)

/-- The MongoDB `$addToSet` update operator on an array of ids. -/
def addToSet (l : List Nat) (i : Nat) : List Nat :=
  if i ∈ l then l else l ++ [i]

/-- The MongoDB `$pull` update operator on an array of ids. -/
def pull (l : List Nat) (i : Nat) : List Nat :=
  l.filter (fun j => j ≠ i)

/-! ### Fresh identifier generation -/

/-- Identifiers occurring in one stored user entry. -/
def userIds (p : Nat × UserDoc) : List Nat :=
  p.1 :: (p.2.profile.toList ++ p.2.enrolledCourses)

/-- Identifiers occurring in one stored profile entry. -/
def profileIds (p : Nat × ProfileDoc) : List Nat := [p.1, p.2.user]

/-- Identifiers occurring in one stored course entry. -/
def courseIds (p : Nat × CourseDoc) : List Nat :=
  p.1 :: p.2.instructor :: (p.2.categories ++ p.2.enrolledStudents)

/-- Identifiers occurring in one stored category entry. -/
def categoryIds (p : Nat × CategoryDoc) : List Nat := p.1 :: p.2.courses

/-- All identifiers contributed by the entries of one collection. -/
def collect (g : β → List Nat) (l : List β) : List Nat :=
  l.foldr (fun p acc => g p ++ acc) []

/-- Every identifier occurring anywhere in the state: collection keys and
all identifier-valued fields and arrays (including dangling references). -/
def allIds (db : DB) : List Nat :=
  collect userIds db.users ++ collect profileIds db.profiles
    ++ collect courseIds db.courses ++ collect categoryIds db.categories

/-- An upper bound of a list of naturals. -/
def maxNat (l : List Nat) : Nat := l.foldr max 0

/-- ObjectId generation: an identifier fresh with respect to everything in
the state. -/
def freshId (db : DB) : Nat := maxNat (allIds db) + 1

/-! ### Schema validation (Mongoose validators and setters) -/

/-- A character counted by the regex class backslash-S (non-whitespace). -/
def isNonSpaceC (c : Char) : Bool := !c.isWhitespace

/-- Does the list start with at least one nonspace character followed by a
dot followed by a nonspace character (allowing the leading nonspace run to
extend)?  This is the part of the email regex after the at sign. -/
def dotSeek : List Char → Bool
  | [] => false
  | c :: rest =>
      (c == '.' && (match rest with
        | c2 :: _ => isNonSpaceC c2
        | [] => false))
      || (isNonSpaceC c && dotSeek rest)

/-- Matches the regex fragment after the at sign: one or more nonspace
characters, a dot, then a nonspace character. -/
def tailAfterAt : List Char → Bool
  | [] => false
  | c :: rest => isNonSpaceC c && dotSeek rest

/-- Unanchored search for the userSchema email pattern
(src/unnamed/part_001 line 53): a nonspace run, an at sign, a nonspace
run, a dot, a nonspace run.  The search succeeds iff some position holds
a nonspace character directly followed by an at sign whose tail matches. -/
def emailScan : List Char → Bool
  | [] => false
  | a :: rest =>
      (isNonSpaceC a && (match rest with
        | '@' :: tl => tailAfterAt tl
        | _ => false))
      || emailScan rest

/-- The userSchema email match validator. -/
def emailFormatOk (s : String) : Bool := emailScan s.data

/-- Leading and trailing whitespace removal on the character list. -/
def trimChars (l : List Char) : List Char :=
  ((l.dropWhile Char.isWhitespace).reverse.dropWhile Char.isWhitespace).reverse

/-- The `lowercase: true` and `trim: true` setters of the email path. -/
def normalizeEmail (s : String) : String :=
  String.mk ((trimChars s.data).map Char.toLower)

/-- String length as JavaScript sees it (code units; identical to the
character count for the ASCII data handled here). -/
def strLen (s : String) : Nat := s.data.length

/-- The password minlength validator (src/unnamed/part_001 lines 62-66).
Validation runs before the pre-save hook, so a freshly set plain password
is measured directly; an already-hashed value is a 60-character bcrypt
string and always passes. -/
def passwordOk : PwVal → Bool
  | .plain s => 6 ≤ strLen s
  | .hashed _ => true

/-- Document validation of the user schema: the email must match the
pattern (which also enforces presence) and the password must satisfy the
minlength rule.  The role is an enum value by construction of `Role`. -/
def userDocValid (u : UserDoc) : Bool :=
  emailFormatOk u.email && passwordOk u.password

/-- userSchema pre-save hook, src/unnamed/part_001 lines 120-133, as its
effect on the PERSISTED document.  When the password path is unmodified
the hook calls next(), which dispatches the save at once; the write delta
of the save contains only the modified paths, so the unmodified password
is not written.  The guard lacks a return, so the hook body then awaits
bcrypt and overwrites this.password — but that detached continuation runs
after the save was dispatched and mutates only the in-memory document,
never the store.  The persisted effect is therefore: hash exactly when
the password path was modified. -/
def preSaveHashPassword (u : UserDoc) (isModifiedPassword : Bool) : UserDoc :=
  if isModifiedPassword then { u with password := bcryptHash u.password } else u

/-- JavaScript string truthiness for an optional body field: absent and
empty-string values are falsy. -/
def truthy : Option String → Option String
  | some s => if s = "" then none else some s
  | none => none

/-! ### Authentication middleware (src/unnamed/part_002) -/

/-- The Authorization header of a request as the middleware discriminates
it: absent, present but not a Bearer header, or carrying a token. -/
inductive AuthHeader where
  | missing
  | notBearer
  | bearer (t : Tok)
deriving DecidableEq, Repr

/-- Outcome of the protect middleware: a 401 response, or control passed
to the following handler with req.user set to the loaded account (which
is null when the referenced account no longer exists — the middleware
does not check the findById result). -/
inductive ProtectOutcome where
  | noToken401
  | invalidToken401
  | proceed (user : Option (Nat × UserDoc))
deriving DecidableEq, Repr

/-- protect, src/unnamed/part_002 lines 48-85: extracts the Bearer token,
verifies it, loads the referenced account (password excluded, modelled by
keeping the document whole) and calls next().  When jwt.verify throws the
response is 401; when no token was supplied the response is 401; when the
token verifies, next() is called even if findById returned null. -/
def protect (db : DB) (header : AuthHeader) : ProtectOutcome :=
  match header with
  | .missing => .noToken401
  | .notBearer => .noToken401
  | .bearer t =>
      match jwtVerify jwtSecret t with
      | none => .invalidToken401
      | some id =>
          match lookup db.users id with
          | some u => .proceed (some (id, u))
          | none => .proceed none

/-! ### Authentication controller (src/unnamed/part_006, second file) -/

/-- Request body of POST /api/auth/register. -/
structure RegisterBody where
  email : Option String
  password : Option String
  firstName : Option String
  lastName : Option String
  role : Option Role
deriving DecidableEq, Repr

/-- Responses of the register handler. -/
inductive RegisterResult where
  | emailInUse400
  | invalidUserData400
  | nameRequired400
  | profileInvalid400
  | created201 (id : Nat) (email : String) (role : Role)
      (profileId : Nat) (token : Tok)
deriving DecidableEq, Repr

/-- register, src/unnamed/part_006 lines 428-484.
Order of effects, exactly as in the source: duplicate-email check, then
User.create (validation, pre-save hashing, insertion), then the
first/last-name presence check, then Profile.create, then a
findByIdAndUpdate that links the profile without re-running the pre-save
hook.  A missing or empty email fails either the duplicate query or the
required validator before anything is written, so it is returned as a 400
with the state unchanged.  The client-supplied role (schema enum, already
parsed as `Role`) defaults to student. -/
def register (db : DB) (body : RegisterBody) : RegisterResult × DB :=
  match truthy body.email with
  | none => (.invalidUserData400, db)
  | some rawEmail =>
      let em := normalizeEmail rawEmail
      if db.users.any (fun p => p.2.email == em) then
        (.emailInUse400, db)
      else
        match truthy body.password with
        | none => (.invalidUserData400, db)
        | some pw =>
            let newUser : UserDoc :=
              { email := em
                password := PwVal.plain pw
                role := body.role.getD Role.student
                profile := none
                enrolledCourses := [] }
            if userDocValid newUser then
              let uid := freshId db
              let stored := preSaveHashPassword newUser true
              let db1 : DB := { db with users := db.users ++ [(uid, stored)] }
              match truthy body.firstName, truthy body.lastName with
              | some fn, some ln =>
                  if strLen fn ≤ 50 && strLen ln ≤ 50 then
                    let pidP := freshId db1
                    let db2 : DB :=
                      { db1 with profiles := db1.profiles ++ [(pidP, ⟨uid, fn, ln⟩)] }
                    let db3 : DB :=
                      { db2 with users :=
                          setById db2.users uid { stored with profile := some pidP } }
                    (.created201 uid em newUser.role pidP (generateToken uid), db3)
                  else (.profileInvalid400, db1)
              | _, _ => (.nameRequired400, db1)
            else (.invalidUserData400, db)

/-! ### User controller (src/backend/controllers/userController.js) -/

/-- Request body of PUT /api/users/:id (the handler reads email and role). -/
structure UpdateUserBody where
  email : Option String
  role : Option Role
deriving DecidableEq, Repr

/-- Responses of the updateUser and deleteUser handlers.  serverError500
stands for the uncaught TypeError raised when req.user is null (the
protect middleware passed a deleted account through). -/
inductive UserResult where
  | serverError500
  | notFound404
  | forbidden403
  | validationFailed400
  | updated200 (id : Nat) (email : String) (role : Role)
  | deleted200 (id : Nat)
deriving DecidableEq, Repr

/-- Persisting a loaded user document with document.save: validation runs
first, then the pre-save hook hashes the password exactly when the
password path was modified (see `preSaveHashPassword`), then the write
replaces the stored entry.  A duplicate email violates the unique index
and aborts the write. -/
def userSave (db : DB) (uid : Nat) (doc : UserDoc) (isModifiedPassword : Bool) :
    Option DB :=
  if userDocValid doc
      && !(db.users.any (fun p => p.1 ≠ uid && p.2.email == doc.email)) then
    some { db with users := setById db.users uid (preSaveHashPassword doc isModifiedPassword) }
  else none

/-- updateUser, src/backend/controllers/userController.js lines 82-117,
behind the protect middleware (no role middleware on this route).  Only
the account owner or an admin may proceed; the email is updated when
supplied (schema setters normalize it) and the role is updated only when
the acting principal is an admin.  The handler never touches the password
path, so the save persists the stored hash unchanged. -/
def updateUser (db : DB) (pid tid : Nat) (body : UpdateUserBody) :
    UserResult × DB :=
  match lookup db.users pid with
  | none => (.serverError500, db)
  | some pu =>
      match lookup db.users tid with
      | none => (.notFound404, db)
      | some tu =>
          if pid ≠ tid && pu.role ≠ Role.admin then (.forbidden403, db)
          else
            let tu1 := match truthy body.email with
              | some e => { tu with email := normalizeEmail e }
              | none => tu
            let tu2 := match body.role with
              | some r => if pu.role = Role.admin then { tu1 with role := r } else tu1
              | none => tu1
            match userSave db tid tu2 false with
            | some db1 => (.updated200 tid tu2.email tu2.role, db1)
            | none => (.validationFailed400, db)

/-- deleteUser, src/backend/controllers/userController.js lines 132-144,
behind protect and authorize(admin).  Deletes the account document only:
no cleanup of the profile, of authored courses, of reviews, or of the
enrolledStudents arrays of courses. -/
def deleteUser (db : DB) (pid tid : Nat) : UserResult × DB :=
  match lookup db.users pid with
  | none => (.serverError500, db)
  | some pu =>
      if pu.role ≠ Role.admin then (.forbidden403, db)
      else
        match lookup db.users tid with
        | none => (.notFound404, db)
        | some _ =>
            (.deleted200 tid, { db with users := removeById db.users tid })

/-! ### Course controller (src/unnamed/part_006, first file) -/

/-- The `trim: true` setter. -/
def normalizeTrim (s : String) : String := String.mk (trimChars s.data)

/-- Request body of POST /api/courses and PUT /api/courses/:id.  The
handlers destructure title, description, price, image, level, duration,
categories and isPublished; an instructor field sent by the client is
never read. -/
structure CourseBody where
  title : Option String
  description : Option String
  price : Option Int
  image : Option String
  level : Option Level
  duration : Option Int
  categories : Option (List Nat)
  isPublished : Option Bool
  instructor : Option Nat
deriving DecidableEq, Repr

/-- Responses of the course handlers. -/
inductive CourseResult where
  | serverError500
  | forbidden403
  | notFound404
  | validationFailed400
  | alreadyEnrolled400
  | notEnrolled400
  | created201 (id : Nat)
  | updated200 (id : Nat)
  | deleted200 (id : Nat)
  | enrolled200 (id : Nat)
  | unenrolled200 (id : Nat)
deriving DecidableEq, Repr

/-- Document validation of the course schema: required non-empty title of
at most 100 characters, required non-empty description of at most 2000
characters, price at least 0 (src/backend/models/Course.js). -/
def courseDocValid (c : CourseDoc) : Bool :=
  !(c.title == "") && decide (strLen c.title ≤ 100)
    && !(c.description == "") && decide (strLen c.description ≤ 2000)
    && decide (0 ≤ c.price)

/-- The course document built by Course.create in createCourse
(src/unnamed/part_006 lines 119-129): the acting principal becomes the
instructor, categories default to the empty list, isPublished to false;
the client-supplied instructor field is not consulted. -/
def mkCourseDoc (pid : Nat) (body : CourseBody) : CourseDoc :=
  { title := normalizeTrim (body.title.getD "")
    description := body.description.getD ""
    price := body.price.getD 0
    image := body.image.getD ""
    level := body.level.getD Level.debutant
    duration := body.duration.getD 0
    instructor := pid
    categories := body.categories.getD []
    enrolledStudents := []
    isPublished := body.isPublished.getD false }

/-- createCourse, src/unnamed/part_006 lines 114-146, behind protect and
authorize(instructor, admin).  Creates the course (price is required, so
an absent price fails validation), then adds the new course id to every
category listed in the request with `$addToSet`. -/
def createCourse (db : DB) (pid : Nat) (body : CourseBody) :
    CourseResult × DB :=
  match lookup db.users pid with
  | none => (.serverError500, db)
  | some pu =>
      if pu.role ≠ Role.instructor && pu.role ≠ Role.admin then (.forbidden403, db)
      else
        let doc := mkCourseDoc pid body
        if body.price.isSome && courseDocValid doc then
          let cid := freshId db
          let db1 : DB := { db with courses := db.courses ++ [(cid, doc)] }
          let db2 : DB :=
            match body.categories with
            | some cats =>
                if cats.isEmpty then db1
                else
                  let newCats :=
                    updateWhere db1.categories (fun kid _ => cats.contains kid)
                      (fun k => { k with courses := addToSet k.courses cid })
                  { db1 with categories := newCats }
            | none => db1
          (.created201 cid, db2)
        else (.validationFailed400, db)

/-- The in-memory field updates of updateCourse (src/unnamed/part_006
lines 184-190): each field is overwritten exactly when the source test
fires (truthiness for title, description and level; presence for price,
image, duration and isPublished).  The categories field is handled
separately by the synchronization step. -/
def applyCourseUpdates (c : CourseDoc) (body : CourseBody) : CourseDoc :=
  let c1 := match truthy body.title with
    | some t => { c with title := normalizeTrim t }
    | none => c
  let c2 := match truthy body.description with
    | some d => { c1 with description := d }
    | none => c1
  let c3 := match body.price with
    | some p => { c2 with price := p }
    | none => c2
  let c4 := match body.image with
    | some im => { c3 with image := im }
    | none => c3
  let c5 := match body.level with
    | some lv => { c4 with level := lv }
    | none => c4
  let c6 := match body.duration with
    | some d => { c5 with duration := d }
    | none => c5
  match body.isPublished with
  | some b => { c6 with isPublished := b }
  | none => c6

/-- updateCourse, src/unnamed/part_006 lines 163-219, behind protect and
authorize(instructor, admin); only the owning instructor or an admin may
proceed.  Field updates follow the source truthiness tests.  When a
categories field is supplied the handler first rewrites the category
collection (remove the course everywhere, add it to the new categories)
and only then saves the course document; if that save fails validation
the category-side writes stay committed while the course keeps its old
category list. -/
def updateCourse (db : DB) (pid cid : Nat) (body : CourseBody) :
    CourseResult × DB :=
  match lookup db.users pid with
  | none => (.serverError500, db)
  | some pu =>
      if pu.role ≠ Role.instructor && pu.role ≠ Role.admin then (.forbidden403, db)
      else
        match lookup db.courses cid with
        | none => (.notFound404, db)
        | some c =>
            if c.instructor ≠ pid && pu.role ≠ Role.admin then (.forbidden403, db)
            else
              let c7 := applyCourseUpdates c body
              let synced : CourseDoc × DB :=
                match body.categories with
                | some cats =>
                    let pulled :=
                      updateWhere db.categories (fun _ k => k.courses.contains cid)
                        (fun k => { k with courses := pull k.courses cid })
                    let dbA : DB := { db with categories := pulled }
                    let added :=
                      updateWhere dbA.categories (fun kid _ => cats.contains kid)
                        (fun k => { k with courses := addToSet k.courses cid })
                    let dbB : DB := { dbA with categories := added }
                    ({ c7 with categories := cats }, dbB)
                | none => (c7, db)
              let c8 := synced.1
              let dbS := synced.2
              if courseDocValid c8 then
                (.updated200 cid, { dbS with courses := setById dbS.courses cid c8 })
              else (.validationFailed400, dbS)

/-- deleteCourse, src/unnamed/part_006 lines 235-265, behind protect and
authorize(instructor, admin); only the owning instructor or an admin may
proceed.  Removes the course id from every category and from every
enrolled account, then deletes the course document. -/
def deleteCourse (db : DB) (pid cid : Nat) : CourseResult × DB :=
  match lookup db.users pid with
  | none => (.serverError500, db)
  | some pu =>
      if pu.role ≠ Role.instructor && pu.role ≠ Role.admin then (.forbidden403, db)
      else
        match lookup db.courses cid with
        | none => (.notFound404, db)
        | some c =>
            if c.instructor ≠ pid && pu.role ≠ Role.admin then (.forbidden403, db)
            else
              let pulledCats :=
                updateWhere db.categories (fun _ k => k.courses.contains cid)
                  (fun k => { k with courses := pull k.courses cid })
              let dbA : DB := { db with categories := pulledCats }
              let pulledUsers :=
                updateWhere dbA.users (fun _ u => u.enrolledCourses.contains cid)
                  (fun u => { u with enrolledCourses := pull u.enrolledCourses cid })
              let dbB : DB := { dbA with users := pulledUsers }
              (.deleted200 cid, { dbB with courses := removeById dbB.courses cid })

/-- enrollInCourse, src/unnamed/part_006 lines 280-305, behind protect.
Fails when the acting account is already in the enrolled list; otherwise
pushes the account onto the course side, saves (document validation of
the already-valid stored course), and adds the course to the account
side with `$addToSet`. -/
def enrollInCourse (db : DB) (pid cid : Nat) : CourseResult × DB :=
  match lookup db.users pid with
  | none => (.serverError500, db)
  | some _ =>
      match lookup db.courses cid with
      | none => (.notFound404, db)
      | some c =>
          if c.enrolledStudents.contains pid then (.alreadyEnrolled400, db)
          else
            let c1 := { c with enrolledStudents := c.enrolledStudents ++ [pid] }
            if courseDocValid c1 then
              let dbA : DB := { db with courses := setById db.courses cid c1 }
              let newUsers :=
                updateWhere dbA.users (fun i _ => i == pid)
                  (fun u => { u with enrolledCourses := addToSet u.enrolledCourses cid })
              (.enrolled200 cid, { dbA with users := newUsers })
            else (.validationFailed400, db)

/-- unenrollFromCourse, src/unnamed/part_006 lines 314-341, behind
protect.  Fails when the acting account is absent from the enrolled list;
otherwise filters the account out of the course side, saves, and pulls
the course from the account side. -/
def unenrollFromCourse (db : DB) (pid cid : Nat) : CourseResult × DB :=
  match lookup db.users pid with
  | none => (.serverError500, db)
  | some _ =>
      match lookup db.courses cid with
      | none => (.notFound404, db)
      | some c =>
          if !c.enrolledStudents.contains pid then (.notEnrolled400, db)
          else
            let c1 := { c with enrolledStudents := pull c.enrolledStudents pid }
            if courseDocValid c1 then
              let dbA : DB := { db with courses := setById db.courses cid c1 }
              let newUsers :=
                updateWhere dbA.users (fun i _ => i == pid)
                  (fun u => { u with enrolledCourses := pull u.enrolledCourses cid })
              (.unenrolled200 cid, { dbA with users := newUsers })
            else (.validationFailed400, db)

/-! ### Category controller (src/backend/controllers/categoryController.js) -/

/-- Request body of the category write handlers. -/
structure CategoryBody where
  name : Option String
  description : Option String
deriving DecidableEq, Repr

/-- Responses of the category handlers. -/
inductive CategoryResult where
  | serverError500
  | forbidden403
  | notFound404
  | conflict400
  | validationFailed400
  | created201 (id : Nat)
  | updated200 (id : Nat)
  | deleted200 (id : Nat)
deriving DecidableEq, Repr

/-- Document validation of the category schema: required non-empty name of
at most 50 characters, description of at most 200 characters
(src/unnamed/part_000). -/
def categoryDocValid (k : CategoryDoc) : Bool :=
  !(k.name == "") && decide (strLen k.name ≤ 50)
    && decide (strLen k.description ≤ 200)

/-- createCategory, src/backend/controllers/categoryController.js lines
81-99, behind protect and authorize(admin).  An absent name fails either
the duplicate query or the required validator, with the state unchanged
either way, so it is returned as a 400. -/
def createCategory (db : DB) (pid : Nat) (body : CategoryBody) :
    CategoryResult × DB :=
  match lookup db.users pid with
  | none => (.serverError500, db)
  | some pu =>
      if pu.role ≠ Role.admin then (.forbidden403, db)
      else
        match body.name with
        | none => (.validationFailed400, db)
        | some nm =>
            if db.categories.any (fun p => p.2.name == normalizeTrim nm) then
              (.conflict400, db)
            else
              let doc : CategoryDoc :=
                { name := normalizeTrim nm
                  description := body.description.getD ""
                  courses := [] }
              if categoryDocValid doc then
                (.created201 (freshId db),
                  { db with categories := db.categories ++ [(freshId db, doc)] })
              else (.validationFailed400, db)

/-- updateCategory, src/backend/controllers/categoryController.js lines
112-132, behind protect and authorize(admin).  Name updates follow
truthiness, description updates fire on any supplied value; the save
validates the document and the unique name index. -/
def updateCategory (db : DB) (pid kid : Nat) (body : CategoryBody) :
    CategoryResult × DB :=
  match lookup db.users pid with
  | none => (.serverError500, db)
  | some pu =>
      if pu.role ≠ Role.admin then (.forbidden403, db)
      else
        match lookup db.categories kid with
        | none => (.notFound404, db)
        | some k =>
            let k1 := match truthy body.name with
              | some nm => { k with name := normalizeTrim nm }
              | none => k
            let k2 := match body.description with
              | some d => { k1 with description := d }
              | none => k1
            if categoryDocValid k2
                && !(db.categories.any (fun p => p.1 ≠ kid && p.2.name == k2.name)) then
              (.updated200 kid, { db with categories := setById db.categories kid k2 })
            else (.validationFailed400, db)

/-- deleteCategory, src/backend/controllers/categoryController.js lines
147-159, behind protect and authorize(admin).  Deletes the category
document only; course documents keep their references to it. -/
def deleteCategory (db : DB) (pid kid : Nat) : CategoryResult × DB :=
  match lookup db.users pid with
  | none => (.serverError500, db)
  | some pu =>
      if pu.role ≠ Role.admin then (.forbidden403, db)
      else
        match lookup db.categories kid with
        | none => (.notFound404, db)
        | some _ =>
            (.deleted200 kid, { db with categories := removeById db.categories kid })

/-! ### Derived average rating (src/backend/models/Course.js lines 181-191) -/

/-- Fuel-bounded floor base-two logarithm by halving; fuel n suffices for
argument n, since the argument halves at every step. -/
def log2Fuel : Nat → Nat → Nat
  | 0, _ => 0
  | fuel + 1, v => if v < 2 then 0 else log2Fuel fuel (v / 2) + 1

/-- Floor of the base-two logarithm (0 at 0), computed by halving. -/
def floorLog2 (n : Nat) : Nat := log2Fuel n n

/-- Floor of the base-two logarithm of the exact mean sum/count, for the
domain arising here (count positive and every rating at least 1, so the
mean is at least 1): no power of two lies strictly between the integer
quotient and the exact quotient, so it equals the floor log of the
integer quotient. -/
def meanExp (sum count : Nat) : Nat := floorLog2 (sum / count)

/-- The 53-bit significand of the IEEE-754 binary64 value of sum/count:
with e = meanExp sum count, the integer nearest to sum·2^(52−e)/count,
ties to even — binary64 division is correctly rounded to nearest, ties to
even. -/
def meanMantissa (sum count : Nat) : Nat :=
  let scaled := sum * 2 ^ (52 - meanExp sum count)
  let q := scaled / count
  let r := scaled % count
  if 2 * r < count then q
  else if count < 2 * r then q + 1
  else if q % 2 = 0 then q else q + 1

/-- The exact rational value of the binary64 double that JavaScript
computes for sum / this.reviews.length: both operands are exact integers
(the ratings sum stays far below 2^53, so the reduce accumulation is
exact) and the division rounds the exact quotient to 53 significant bits,
nearest, ties to even. -/
def doubleMean (sum count : Nat) : ℚ :=
  (meanMantissa sum count : ℚ) / 2 ^ (52 - meanExp sum count)

/-- toFixed(1) applied to the double value of the mean, read back as the
rational number the emitted decimal string denotes, in units of tenths.
For a nonnegative argument toFixed(1) picks the multiple of 1/10 nearest
to the exact rational value of the double, ties away from zero:
⌊10·x + 1/2⌋ tenths.  With x = m/2^(52−e) this is the integer division
(20·m + 2^(52−e)) / 2^(53−e). -/
def averageRatingTenths (ratings : List Nat) : Nat :=
  if ratings.length = 0 then 0
  else
    (20 * meanMantissa ratings.sum ratings.length
        + 2 ^ (52 - meanExp ratings.sum ratings.length))
      / 2 ^ (53 - meanExp ratings.sum ratings.length)

/-- The averageRating virtual (src/backend/models/Course.js lines
181-191): 0 with no reviews, otherwise the arithmetic mean computed in
binary64 floating point and rendered with toFixed(1), read back as the
rational number the emitted decimal string denotes. -/
def averageRating (ratings : List Nat) : ℚ :=
  (averageRatingTenths ratings : ℚ) / 10

/-- The specification wording: the arithmetic mean rounded to one decimal
place, half up, over exact rationals. -/
def specMeanRoundedHalfUpTenth (ratings : List Nat) : ℚ :=
  (⌊10 * ((ratings.sum : ℚ) / ratings.length) + 1 / 2⌋ : ℤ) / 10

/-- Twenty ratings summing to 87 (thirteen 4s and seven 5s): the exact
mean 4.35 is a decimal tie that is not representable in binary64. -/
def tieRatings : List Nat := List.replicate 13 4 ++ List.replicate 7 5

/-! ### The API operations and reachability -/

/-- One state-changing request of the API, tagged with the identifier the
acting principal authenticated as (registration is anonymous).  Read-only
endpoints are omitted: they do not change the state. -/
inductive Op where
  | register (body : RegisterBody)
  | updateUser (pid tid : Nat) (body : UpdateUserBody)
  | deleteUser (pid tid : Nat)
  | createCourse (pid : Nat) (body : CourseBody)
  | updateCourse (pid cid : Nat) (body : CourseBody)
  | deleteCourse (pid cid : Nat)
  | enroll (pid cid : Nat)
  | unenroll (pid cid : Nat)
  | createCategory (pid : Nat) (body : CategoryBody)
  | updateCategory (pid kid : Nat) (body : CategoryBody)
  | deleteCategory (pid kid : Nat)

/-- Abbreviation for the category-collection rewrite that removes a course
from every category referencing it (the `$pull` updateMany of updateCourse
and deleteCourse). -/
def pullCourseFromCats (cats : List (Nat × CategoryDoc)) (cid : Nat) :
    List (Nat × CategoryDoc) :=
  updateWhere cats (fun _ k => k.courses.contains cid)
    (fun k => { k with courses := pull k.courses cid })

/-- Abbreviation for the category-collection rewrite that adds a course to
every category in a given id list (the `$addToSet` updateMany of
createCourse and updateCourse). -/
def addCourseToCats (cats : List (Nat × CategoryDoc)) (l : List Nat) (cid : Nat) :
    List (Nat × CategoryDoc) :=
  updateWhere cats (fun kid _ => l.contains kid)
    (fun k => { k with courses := addToSet k.courses cid })

/-- The state reached after serving one request. -/
def applyOp (db : DB) : Op → DB
  | .register body => (register db body).2
  | .updateUser pid tid body => (updateUser db pid tid body).2
  | .deleteUser pid tid => (deleteUser db pid tid).2
  | .createCourse pid body => (createCourse db pid body).2
  | .updateCourse pid cid body => (updateCourse db pid cid body).2
  | .deleteCourse pid cid => (deleteCourse db pid cid).2
  | .enroll pid cid => (enrollInCourse db pid cid).2
  | .unenroll pid cid => (unenrollFromCourse db pid cid).2
  | .createCategory pid body => (createCategory db pid body).2
  | .updateCategory pid kid body => (updateCategory db pid kid body).2
  | .deleteCategory pid kid => (deleteCategory db pid kid).2

/-- States reachable from the empty store through the API. -/
inductive Reachable : DB → Prop where
  | init : Reachable initDB
  | step (db : DB) (op : Op) : Reachable db → Reachable (applyOp db op)

/-! ### The specified invariants and authorization predicates -/

/-- Spec section 8: for every stored course and every stored account, the
account appears in the enrolled list of the course iff the course appears
in the enrolled list of the account. -/
def EnrollmentMutual (db : DB) : Prop :=
  ∀ cid c uid u, lookup db.courses cid = some c → lookup db.users uid = some u →
    (uid ∈ c.enrolledStudents ↔ cid ∈ u.enrolledCourses)

/-- Spec section 8: for every stored course and every stored category, the
category appears in the category list of the course iff the course appears
in the course list of the category. -/
def CategoryMutual (db : DB) : Prop :=
  ∀ cid c kid k, lookup db.courses cid = some c → lookup db.categories kid = some k →
    (kid ∈ c.categories ↔ cid ∈ k.courses)

/-- The identifier the acting principal of an operation authenticated as;
registration is anonymous. -/
def opPrincipal : Op → Option Nat
  | .register _ => none
  | .updateUser pid _ _ => some pid
  | .deleteUser pid _ => some pid
  | .createCourse pid _ => some pid
  | .updateCourse pid _ _ => some pid
  | .deleteCourse pid _ => some pid
  | .enroll pid _ => some pid
  | .unenroll pid _ => some pid
  | .createCategory pid _ => some pid
  | .updateCategory pid _ _ => some pid
  | .deleteCategory pid _ => some pid

/-- The operation is performed by a non-admin principal: anonymous, or a
principal whose stored account (if any) does not have the admin role. -/
def nonAdminOp (db : DB) (op : Op) : Bool :=
  match opPrincipal op with
  | none => true
  | some pid =>
      match lookup db.users pid with
      | some u => u.role != Role.admin
      | none => true

/-- Claim C1 as stated: across every operation performed by a non-admin
principal on a reachable state, an account with the admin role in the
post-state must already have been stored with the admin role. -/
def NoAdminCreation : Prop :=
  ∀ db op, Reachable db → nonAdminOp db op = true →
    ∀ uid u2, lookup (applyOp db op).users uid = some u2 → u2.role = Role.admin →
      ∃ u1, lookup db.users uid = some u1 ∧ u1.role = Role.admin

/-- The single operation shape whose partial failure breaks the
course-category invariant: a course update that supplies a categories
field but fails document validation at the save.  Every other operation
is unconditionally safe. -/
def categorySyncSafe (db : DB) : Op → Prop
  | .updateCourse pid cid body =>
      body.categories = none
        ∨ (updateCourse db pid cid body).1 ≠ CourseResult.validationFailed400
  | _ => True

/-! ### Concrete scenario data used by witnesses and counterexamples -/

/-- A plain student registration request. -/
def bodyA : RegisterBody :=
  { email := some "a@x.com", password := some "secret1",
    firstName := some "A", lastName := some "B", role := none }

/-- A registration request that supplies the admin role. -/
def bodyAdmin : RegisterBody :=
  { email := some "root@x.com", password := some "secret1",
    firstName := some "R", lastName := some "T", role := some Role.admin }

/-- A registration request that supplies the instructor role. -/
def bodyInstructor : RegisterBody :=
  { email := some "i@x.com", password := some "secret1",
    firstName := some "I", lastName := some "J", role := some Role.instructor }

/-- A user update that changes only the email. -/
def emailOnlyUpdate : UpdateUserBody := { email := some "b@x.com", role := none }

/-- A user update that tries to set the admin role. -/
def roleEscalationUpdate : UpdateUserBody := { email := none, role := some Role.admin }

/-- A valid course-creation body without categories. -/
def courseBodyPlain : CourseBody :=
  { title := some "Lean", description := some "Proofs", price := some 0,
    image := none, level := none, duration := none, categories := none,
    isPublished := none, instructor := none }

/-- A valid course-creation body listing category 3. -/
def courseBody0 : CourseBody :=
  { title := some "Lean", description := some "Proofs", price := some 0,
    image := none, level := none, duration := none, categories := some [3],
    isPublished := none, instructor := none }

/-- Category-creation bodies. -/
def catBody1 : CategoryBody := { name := some "Web", description := none }

def catBody2 : CategoryBody := { name := some "Data", description := none }

/-- A title of 101 characters, one over the schema maximum. -/
def longTitle : String := String.mk (List.replicate 101 'a')

/-- A course update that moves the course from category 3 to category 4
while also carrying an invalid title, so the save fails after the
category collection has already been rewritten. -/
def badUpdateBody : CourseBody :=
  { title := some longTitle, description := none, price := none,
    image := none, level := none, duration := none, categories := some [4],
    isPublished := none, instructor := none }

/-- The state after the admin registers (account 1, profile 2). -/
def dbAdmin1 : DB := applyOp initDB (Op.register bodyAdmin)

/-- The state after the plain student registers (account 1, profile 2). -/
def dbStudent1 : DB := applyOp initDB (Op.register bodyA)

/-- A trace exercising registration, course creation and enrollment:
admin account 1, course 3, account 1 enrolled in course 3. -/
def c5Trace : DB :=
  applyOp (applyOp dbAdmin1 (Op.createCourse 1 courseBodyPlain)) (Op.enroll 1 3)

/-- A trace ending in the partially failed course update: admin account 1,
categories 3 and 4, course 5 created in category 3, then the failed
update.  In the final state course 5 still lists category 3 while
category 3 no longer lists course 5. -/
def c6Trace : DB :=
  applyOp (applyOp (applyOp (applyOp dbAdmin1
    (Op.createCategory 1 catBody1)) (Op.createCategory 1 catBody2))
    (Op.createCourse 1 courseBody0)) (Op.updateCourse 1 5 badUpdateBody)

/-- The state after the instructor registers (account 1, profile 2). -/
def dbInstr1 : DB := applyOp initDB (Op.register bodyInstructor)

/-- The stored account document of the plain student after registration. -/
def uStudentDoc : UserDoc :=
  { email := "a@x.com", password := PwVal.hashed (PwVal.plain "secret1"),
    role := Role.student, profile := some 2, enrolledCourses := [] }

/-- The stored instructor account after registration. -/
def uInstrDoc : UserDoc :=
  { email := "i@x.com", password := PwVal.hashed (PwVal.plain "secret1"),
    role := Role.instructor, profile := some 2, enrolledCourses := [] }

/-- Course 3 of `c5Trace`, with account 1 enrolled. -/
def cTraceCourse : CourseDoc :=
  { title := "Lean", description := "Proofs", price := 0, image := "",
    level := Level.debutant, duration := 0, instructor := 1,
    categories := [], enrolledStudents := [1], isPublished := false }

/-- Account 1 of `c5Trace`, enrolled in course 3. -/
def uTraceUser : UserDoc :=
  { email := "root@x.com", password := PwVal.hashed (PwVal.plain "secret1"),
    role := Role.admin, profile := some 2, enrolledCourses := [3] }

/-- Course 5 at the end of `c6Trace`: it still lists category 3. -/
def courseAfterBadUpdate : CourseDoc :=
  { title := "Lean", description := "Proofs", price := 0, image := "",
    level := Level.debutant, duration := 0, instructor := 1,
    categories := [3], enrolledStudents := [], isPublished := false }

/-- Category 3 at the end of `c6Trace`: it no longer lists course 5. -/
def catAfterBadUpdate : CategoryDoc :=
  { name := "Web", description := "", courses := [] }

/-! ### Helper lemmas -/

theorem le_maxNat {l : List Nat} {i : Nat} (h : i ∈ l) : i ≤ maxNat l := by
  induction l with
  | nil => cases h
  | cons a t ih =>
      rcases List.mem_cons.mp h with h | h
      · subst h; exact Nat.le_max_left _ _
      · exact Nat.le_trans (ih h) (Nat.le_max_right _ _)

theorem freshId_not_mem {db : DB} {i : Nat} (h : i ∈ allIds db) : i ≠ freshId db := by
  have := le_maxNat h
  unfold freshId
  omega

theorem mem_collect {g : β → List Nat} {l : List β} {b : β} {x : Nat}
    (hb : b ∈ l) (hx : x ∈ g b) : x ∈ collect g l := by
  induction l with
  | nil => cases hb
  | cons a t ih =>
      rcases List.mem_cons.mp hb with h | h
      · subst h; exact List.mem_append.mpr (Or.inl hx)
      · exact List.mem_append.mpr (Or.inr (ih h))

theorem user_key_mem_allIds {db : DB} {i : Nat} {u : UserDoc}
    (h : (i, u) ∈ db.users) : i ∈ allIds db := by
  unfold allIds
  exact List.mem_append_left _ (List.mem_append_left _
    (List.mem_append_left _ (mem_collect h (by simp [userIds]))))

theorem user_ec_mem_allIds {db : DB} {i : Nat} {u : UserDoc} {c : Nat}
    (h : (i, u) ∈ db.users) (hc : c ∈ u.enrolledCourses) : c ∈ allIds db := by
  unfold allIds
  exact List.mem_append_left _ (List.mem_append_left _
    (List.mem_append_left _ (mem_collect h (by simp [userIds, hc]))))

theorem course_key_mem_allIds {db : DB} {i : Nat} {c : CourseDoc}
    (h : (i, c) ∈ db.courses) : i ∈ allIds db := by
  unfold allIds
  exact List.mem_append_left _ (List.mem_append_right _
    (mem_collect h (by simp [courseIds])))

theorem course_es_mem_allIds {db : DB} {i : Nat} {c : CourseDoc} {s : Nat}
    (h : (i, c) ∈ db.courses) (hs : s ∈ c.enrolledStudents) : s ∈ allIds db := by
  unfold allIds
  exact List.mem_append_left _ (List.mem_append_right _
    (mem_collect h (by simp [courseIds, hs])))

theorem course_cat_mem_allIds {db : DB} {i : Nat} {c : CourseDoc} {k : Nat}
    (h : (i, c) ∈ db.courses) (hk : k ∈ c.categories) : k ∈ allIds db := by
  unfold allIds
  exact List.mem_append_left _ (List.mem_append_right _
    (mem_collect h (by simp [courseIds, hk])))

theorem category_key_mem_allIds {db : DB} {i : Nat} {k : CategoryDoc}
    (h : (i, k) ∈ db.categories) : i ∈ allIds db := by
  unfold allIds
  exact List.mem_append_right _ (mem_collect h (by simp [categoryIds]))

theorem category_courses_mem_allIds {db : DB} {i : Nat} {k : CategoryDoc} {c : Nat}
    (h : (i, k) ∈ db.categories) (hc : c ∈ k.courses) : c ∈ allIds db := by
  unfold allIds
  exact List.mem_append_right _ (mem_collect h (by simp [categoryIds, hc]))

/-! ### Lookup lemmas -/

theorem lookup_cons {α} (a : Nat × α) (t : List (Nat × α)) (i : Nat) :
    lookup (a :: t) i = if a.1 = i then some a.2 else lookup t i := by
  by_cases h : a.1 = i <;> simp [lookup, List.find?_cons, h]

theorem lookup_mem {α} {l : List (Nat × α)} {i : Nat} {v : α}
    (h : lookup l i = some v) : (i, v) ∈ l := by
  induction l with
  | nil => simp [lookup] at h
  | cons a t ih =>
      rw [lookup_cons] at h
      by_cases ha : a.1 = i
      · rw [if_pos ha] at h
        have hv := Option.some.inj h
        subst hv
        subst ha
        exact List.mem_cons_self _ _
      · rw [if_neg ha] at h
        exact List.mem_cons.mpr (Or.inr (ih h))

theorem lookup_append_single {α} (l : List (Nat × α)) (i j : Nat) (d : α) :
    lookup (l ++ [(i, d)]) j =
      match lookup l j with
      | some v => some v
      | none => if i = j then some d else none := by
  induction l with
  | nil =>
      rw [List.nil_append, lookup_cons]
      simp [lookup]
  | cons a t ih =>
      rw [List.cons_append, lookup_cons, lookup_cons]
      by_cases h : a.1 = j <;> simp [h, ih]

theorem lookup_setById {α} (l : List (Nat × α)) (i j : Nat) (d : α) :
    lookup (setById l i d) j =
      if i = j then (lookup l j).map (fun _ => d) else lookup l j := by
  induction l with
  | nil => by_cases h : i = j <;> simp [lookup, setById, h]
  | cons a t ih =>
      unfold setById at ih ⊢
      rw [List.map_cons]
      by_cases ha : a.1 = i
      · rw [if_pos ha, lookup_cons, lookup_cons]
        by_cases hj : i = j
        · subst hj
          simp [ha, ih]
        · have haj : ¬ a.1 = j := by omega
          simp [hj, haj, ih]
      · rw [if_neg ha, lookup_cons, lookup_cons]
        by_cases haj : a.1 = j
        · have hij : ¬ i = j := by omega
          simp [haj, hij]
        · simp [haj, ih]

theorem lookup_removeById {α} (l : List (Nat × α)) (i j : Nat) :
    lookup (removeById l i) j = if i = j then none else lookup l j := by
  induction l with
  | nil => by_cases h : i = j <;> simp [lookup, removeById, h]
  | cons a t ih =>
      unfold removeById at ih ⊢
      simp only [ne_eq, decide_not] at ih ⊢
      by_cases ha : a.1 = i
      · rw [List.filter_cons_of_neg (by simp [ha]), ih]
        by_cases hj : i = j
        · simp [hj]
        · have haj : ¬ a.1 = j := by omega
          rw [lookup_cons]
          simp [haj, hj]
      · rw [List.filter_cons_of_pos (by simp [ha]), lookup_cons, lookup_cons]
        by_cases haj : a.1 = j
        · have hij : ¬ i = j := by omega
          simp [haj, hij]
        · simp [haj, ih]

theorem lookup_updateWhere {α} (l : List (Nat × α)) (P : Nat → α → Bool)
    (f : α → α) (j : Nat) :
    lookup (updateWhere l P f) j =
      (lookup l j).map (fun v => if P j v then f v else v) := by
  induction l with
  | nil => simp [lookup, updateWhere]
  | cons a t ih =>
      unfold updateWhere at *
      rw [List.map_cons]
      by_cases hP : P a.1 a.2
      · rw [if_pos hP, lookup_cons, lookup_cons]
        by_cases haj : a.1 = j
        · subst haj; simp [hP]
        · simp [haj, ih]
      · rw [if_neg hP, lookup_cons, lookup_cons]
        by_cases haj : a.1 = j
        · subst haj; simp [hP]
        · simp [haj, ih]



/-- Fuel induction for the fuelled floor log: any value below 2^(k+1)
has floor log at most k, whatever the fuel. -/
theorem log2Fuel_le (f : Nat) : ∀ v k, v < 2 ^ (k + 1) → log2Fuel f v ≤ k := by
  induction f with
  | zero => intro v k h; exact Nat.zero_le k
  | succ f ih =>
      intro v k h
      unfold log2Fuel
      by_cases hv : v < 2
      · rw [if_pos hv]; exact Nat.zero_le k
      · rw [if_neg hv]
        cases k with
        | zero => omega
        | succ k =>
            have hlt : v / 2 < 2 ^ (k + 1) := by
              apply Nat.div_lt_of_lt_mul
              have hp : 2 ^ (k + 1 + 1) = 2 * 2 ^ (k + 1) := by ring
              omega
            exact Nat.add_le_add_right (ih (v / 2) k hlt) 1

/-- The rational floor of a quotient of naturals is the natural integer
division. -/
theorem int_floor_natCast_div (a b : Nat) :
    ⌊(a : ℚ) / (b : ℚ)⌋ = ((a / b : Nat) : ℤ) := by
  have h0 : (0 : ℚ) ≤ (a : ℚ) / (b : ℚ) := by positivity
  rw [← Int.natCast_floor_eq_floor h0, Nat.floor_div_nat, Nat.floor_natCast]

/-- C8 counterexample: the general half-up clause is false of the
program.  Twenty reviews summing to 87 have exact mean 4.35, which
rounded half-up to one decimal is 4.4; but binary64 evaluates 87/20 to
4897664594765414·2^−50 = 4.3499999999999996…, strictly below the tie,
so toFixed(1) reports 4.3. -/
theorem averageRating_halfUp_refuted :
    tieRatings.sum = 87 ∧ tieRatings.length = 20 ∧
    averageRating tieRatings = 43 / 10 ∧
    specMeanRoundedHalfUpTenth tieRatings = 44 / 10 ∧
    (43 : ℚ) / 10 ≠ 44 / 10 := by
  refine ⟨by decide, by decide, ?_, ?_, by norm_num⟩
  · have h : averageRatingTenths tieRatings = 43 := by decide
    unfold averageRating
    rw [h]
    norm_num
  · have hs : tieRatings.sum = 87 := by decide
    have hl : tieRatings.length = 20 := by decide
    unfold specMeanRoundedHalfUpTenth
    rw [hs, hl]
    norm_num

/-- C8 amended: with no reviews the reported value is 0; for the claim's
concrete ratings [5,4,5] the reported value is exactly 4.7; and whenever
the binary64 mean is exact (the double equals the rational mean, as it
does at every concrete input the claim names), the reported value is the
arithmetic mean rounded to one decimal place half-up.  When the mean is
not exactly representable, toFixed(1) follows the double instead — see
the counterexample, where 4.35 reports as 4.3.  The rating bound mirrors
the schema validator (max 5). -/
theorem averageRating_amended :
    averageRating [5, 4, 5] = 47 / 10 ∧ averageRating [] = 0 ∧
    ∀ ratings : List Nat, ratings.length ≠ 0 →
      (∀ r ∈ ratings, r ≤ 5) →
      doubleMean ratings.sum ratings.length
          = (ratings.sum : ℚ) / ratings.length →
      averageRating ratings = specMeanRoundedHalfUpTenth ratings := by
  refine ⟨?_, ?_, ?_⟩
  · have h : averageRatingTenths [5, 4, 5] = 47 := by decide
    unfold averageRating
    rw [h]
    norm_num
  · have h : averageRatingTenths [] = 0 := by decide
    unfold averageRating
    rw [h]
    norm_num
  · intro rs hlen hb hd
    have hn0 : 0 < rs.length := Nat.pos_of_ne_zero hlen
    have hs5 : rs.sum ≤ rs.length * 5 := by
      have h1 := List.sum_le_card_nsmul rs 5 hb
      simpa [smul_eq_mul] using h1
    have hq8 : rs.sum / rs.length < 8 := by
      apply Nat.div_lt_of_lt_mul
      omega
    have he2 : meanExp rs.sum rs.length ≤ 2 := by
      unfold meanExp floorLog2
      apply log2Fuel_le
      simpa using hq8
    unfold doubleMean at hd
    unfold averageRating averageRatingTenths specMeanRoundedHalfUpTenth
    rw [if_neg hlen, ← hd]
    generalize hgm : meanMantissa rs.sum rs.length = m at *
    generalize hge : meanExp rs.sum rs.length = e at *
    have hE : 53 - e = (52 - e) + 1 := by omega
    have harith : 10 * ((m : ℚ) / 2 ^ (52 - e)) + 1 / 2
        = ((20 * m + 2 ^ (52 - e) : Nat) : ℚ) / ((2 ^ (53 - e) : Nat) : ℚ) := by
      rw [hE]
      push_cast
      have h1 : ((2 : ℚ)) ^ (52 - e) ≠ 0 := by positivity
      field_simp
      ring
    have key : (⌊10 * ((m : ℚ) / 2 ^ (52 - e)) + 1 / 2⌋ : ℤ)
        = ((20 * m + 2 ^ (52 - e)) / 2 ^ (53 - e) : Nat) := by
      rw [harith, int_floor_natCast_div]
    rw [key, Int.cast_natCast]

/-- Witness for `averageRating_amended`: two reviews rated 4 and 5 have
mean 4.5, exactly representable in binary64, and the reported value is
the half-up rounding of the exact mean. -/
theorem averageRating_amended_witness :
    (([4, 5] : List Nat).length ≠ 0) ∧
    (∀ r ∈ ([4, 5] : List Nat), r ≤ 5) ∧
    doubleMean ([4, 5] : List Nat).sum ([4, 5] : List Nat).length
      = (([4, 5] : List Nat).sum : ℚ) / (([4, 5] : List Nat).length : ℚ) ∧
    averageRating [4, 5] = specMeanRoundedHalfUpTenth [4, 5] := by
  have hd : doubleMean ([4, 5] : List Nat).sum ([4, 5] : List Nat).length
      = (([4, 5] : List Nat).sum : ℚ) / (([4, 5] : List Nat).length : ℚ) := by
    have hm : meanMantissa ([4, 5] : List Nat).sum ([4, 5] : List Nat).length
        = 9 * 2 ^ 49 := by decide
    have he : meanExp ([4, 5] : List Nat).sum ([4, 5] : List Nat).length = 2 := by decide
    have hs : ([4, 5] : List Nat).sum = 9 := by decide
    have hl : ([4, 5] : List Nat).length = 2 := by decide
    unfold doubleMean
    rw [hm, he, hs, hl]
    push_cast
    norm_num
  exact ⟨by decide, by decide, hd,
    averageRating_amended.2.2 [4, 5] (by decide) (by decide) hd⟩

/-- C10: an unauthenticated registration that supplies the admin role
succeeds, stores the supplied role, and returns a token that verifies to
the new account. -/
theorem register_role_escalation :
    (register initDB bodyAdmin).1
      = RegisterResult.created201 1 "root@x.com" Role.admin 2 (generateToken 1) ∧
    lookup (register initDB bodyAdmin).2.users 1 = some
      { email := "root@x.com", password := PwVal.hashed (PwVal.plain "secret1"),
        role := Role.admin, profile := some 2, enrolledCourses := [] } ∧
    jwtVerify jwtSecret (generateToken 1) = some 1 := by decide

/-- C4: a bearer token that verifies but references a deleted account
does not produce the 401 outcome of the other failure cases: protect
passes control onward with a null principal. -/
theorem protect_deleted_account_not_401 :
    jwtVerify jwtSecret (generateToken 7) = some 7 ∧
    lookup initDB.users 7 = none ∧
    protect initDB (AuthHeader.bearer (generateToken 7)) = ProtectOutcome.proceed none ∧
    protect initDB AuthHeader.missing = ProtectOutcome.noToken401 ∧
    protect initDB AuthHeader.notBearer = ProtectOutcome.noToken401 ∧
    protect initDB (AuthHeader.bearer { userId := 7, secret := jwtSecret, expired := true })
      = ProtectOutcome.invalidToken401 ∧
    protect initDB (AuthHeader.bearer { userId := 7, secret := "EVIL", expired := false })
      = ProtectOutcome.invalidToken401 ∧
    ProtectOutcome.proceed none ≠ ProtectOutcome.noToken401 ∧
    ProtectOutcome.proceed none ≠ ProtectOutcome.invalidToken401 := by decide

/-- C3 counterexample: a registration with the last name missing fails
with 400, yet an account with the supplied email has been created and
persists in the store. -/
theorem register_missing_name_persists :
    (register initDB { bodyA with lastName := none }).1
      = RegisterResult.nameRequired400 ∧
    lookup (register initDB { bodyA with lastName := none }).2.users 1 = some
      { email := "a@x.com", password := PwVal.hashed (PwVal.plain "secret1"),
        role := Role.student, profile := none, enrolledCourses := [] } ∧
    (register initDB { bodyA with lastName := none }).2 ≠ initDB := by decide

/-- C3 amended: when registration is called with the first or last name
missing (while the duplicate check and the account validation succeed),
the request fails with 400, no profile is created, but the account
document created earlier in the handler persists in the store. -/
theorem register_missing_name
    (db : DB) (body : RegisterBody) (rawE pw : String)
    (he : truthy body.email = some rawE)
    (hdup : db.users.any (fun p => p.2.email == normalizeEmail rawE) = false)
    (hpw : truthy body.password = some pw)
    (hvalid : userDocValid
      { email := normalizeEmail rawE, password := PwVal.plain pw,
        role := body.role.getD Role.student, profile := none,
        enrolledCourses := [] } = true)
    (hname : truthy body.firstName = none ∨ truthy body.lastName = none) :
    (register db body).1 = RegisterResult.nameRequired400 ∧
    (register db body).2.users = db.users ++
      [(freshId db,
        { email := normalizeEmail rawE, password := PwVal.hashed (PwVal.plain pw),
          role := body.role.getD Role.student, profile := none,
          enrolledCourses := [] })] ∧
    (register db body).2.profiles = db.profiles ∧
    (register db body).2.courses = db.courses ∧
    (register db body).2.categories = db.categories := by
  unfold register
  rcases hname with hn | hn
  · simp only [he, hdup, hpw, hvalid, hn, Bool.false_eq_true, if_false, if_true]
    cases hl : truthy body.lastName <;>
      simp [preSaveHashPassword, bcryptHash]
  · simp only [he, hdup, hpw, hvalid, hn, Bool.false_eq_true, if_false, if_true]
    cases hf : truthy body.firstName <;>
      simp [preSaveHashPassword, bcryptHash]

/-- Witness for `register_missing_name` at the concrete registration of
bodyA without a last name on the empty store. -/
theorem register_missing_name_witness :
    truthy ({ bodyA with lastName := none } : RegisterBody).email = some "a@x.com" ∧
    (register initDB { bodyA with lastName := none }).1
        = RegisterResult.nameRequired400 ∧
    (register initDB { bodyA with lastName := none }).2.users = initDB.users ++
      [(freshId initDB,
        { email := normalizeEmail "a@x.com",
          password := PwVal.hashed (PwVal.plain "secret1"),
          role := Role.student, profile := none, enrolledCourses := [] })] := by
  have h := register_missing_name initDB { bodyA with lastName := none }
    "a@x.com" "secret1" (by decide) (by decide) (by decide) (by decide)
    (Or.inr (by decide))
  exact ⟨by decide, h.1, h.2.1⟩

/-! ### Freshness corollaries and membership helpers -/

theorem lookup_users_fresh (db : DB) : lookup db.users (freshId db) = none := by
  cases h : lookup db.users (freshId db) with
  | none => rfl
  | some u => exact absurd rfl (freshId_not_mem (user_key_mem_allIds (lookup_mem h)))

theorem lookup_courses_fresh (db : DB) : lookup db.courses (freshId db) = none := by
  cases h : lookup db.courses (freshId db) with
  | none => rfl
  | some c => exact absurd rfl (freshId_not_mem (course_key_mem_allIds (lookup_mem h)))

theorem lookup_categories_fresh (db : DB) : lookup db.categories (freshId db) = none := by
  cases h : lookup db.categories (freshId db) with
  | none => rfl
  | some k => exact absurd rfl (freshId_not_mem (category_key_mem_allIds (lookup_mem h)))

theorem fresh_notin_ec {db : DB} {uid : Nat} {u : UserDoc}
    (hu : lookup db.users uid = some u) : freshId db ∉ u.enrolledCourses :=
  fun hmem => absurd rfl (freshId_not_mem (user_ec_mem_allIds (lookup_mem hu) hmem))

theorem fresh_notin_es {db : DB} {cid : Nat} {c : CourseDoc}
    (hc : lookup db.courses cid = some c) : freshId db ∉ c.enrolledStudents :=
  fun hmem => absurd rfl (freshId_not_mem (course_es_mem_allIds (lookup_mem hc) hmem))

theorem fresh_notin_ccats {db : DB} {cid : Nat} {c : CourseDoc}
    (hc : lookup db.courses cid = some c) : freshId db ∉ c.categories :=
  fun hmem => absurd rfl (freshId_not_mem (course_cat_mem_allIds (lookup_mem hc) hmem))

theorem fresh_notin_kcourses {db : DB} {kid : Nat} {k : CategoryDoc}
    (hk : lookup db.categories kid = some k) : freshId db ∉ k.courses :=
  fun hmem => absurd rfl (freshId_not_mem (category_courses_mem_allIds (lookup_mem hk) hmem))

theorem fresh_ne_user_key {db : DB} {uid : Nat} {u : UserDoc}
    (hu : lookup db.users uid = some u) : uid ≠ freshId db :=
  freshId_not_mem (user_key_mem_allIds (lookup_mem hu))

theorem fresh_ne_course_key {db : DB} {cid : Nat} {c : CourseDoc}
    (hc : lookup db.courses cid = some c) : cid ≠ freshId db :=
  freshId_not_mem (course_key_mem_allIds (lookup_mem hc))

theorem fresh_ne_category_key {db : DB} {kid : Nat} {k : CategoryDoc}
    (hk : lookup db.categories kid = some k) : kid ≠ freshId db :=
  freshId_not_mem (category_key_mem_allIds (lookup_mem hk))

theorem mem_addToSet {l : List Nat} {i x : Nat} :
    x ∈ addToSet l i ↔ x ∈ l ∨ x = i := by
  unfold addToSet
  by_cases h : i ∈ l
  · rw [if_pos h]
    constructor
    · exact Or.inl
    · rintro (hx | rfl)
      · exact hx
      · exact h
  · rw [if_neg h]
    simp

theorem mem_pull {l : List Nat} {i x : Nat} :
    x ∈ pull l i ↔ x ∈ l ∧ x ≠ i := by
  simp [pull]

theorem mem_push {l : List Nat} {i x : Nat} :
    x ∈ l ++ [i] ↔ x ∈ l ∨ x = i := by
  simp

/-- Enrollment mutuality only reads the user and course collections. -/
theorem EM_of_components {db db2 : DB} (hu : db2.users = db.users)
    (hc : db2.courses = db.courses) (h : EnrollmentMutual db) :
    EnrollmentMutual db2 := by
  intro cid c uid u h1 h2
  rw [hc] at h1
  rw [hu] at h2
  exact h cid c uid u h1 h2

/-- Category mutuality only reads the course and category collections. -/
theorem CM_of_components {db db2 : DB} (hc : db2.courses = db.courses)
    (hk : db2.categories = db.categories) (h : CategoryMutual db) :
    CategoryMutual db2 := by
  intro cid c kid k h1 h2
  rw [hc] at h1
  rw [hk] at h2
  exact h cid c kid k h1 h2

theorem courseDocValid_es (c : CourseDoc) (x : List Nat) :
    courseDocValid { c with enrolledStudents := x } = courseDocValid c := rfl

theorem applyCourseUpdates_es (c : CourseDoc) (body : CourseBody) :
    (applyCourseUpdates c body).enrolledStudents = c.enrolledStudents := by
  unfold applyCourseUpdates
  cases truthy body.title <;> cases truthy body.description <;>
    cases body.price <;> cases body.image <;> cases body.level <;>
    cases body.duration <;> cases body.isPublished <;> rfl

theorem applyCourseUpdates_categories (c : CourseDoc) (body : CourseBody) :
    (applyCourseUpdates c body).categories = c.categories := by
  unfold applyCourseUpdates
  cases truthy body.title <;> cases truthy body.description <;>
    cases body.price <;> cases body.image <;> cases body.level <;>
    cases body.duration <;> cases body.isPublished <;> rfl

theorem applyCourseUpdates_instructor (c : CourseDoc) (body : CourseBody) :
    (applyCourseUpdates c body).instructor = c.instructor := by
  unfold applyCourseUpdates
  cases truthy body.title <;> cases truthy body.description <;>
    cases body.price <;> cases body.image <;> cases body.level <;>
    cases body.duration <;> cases body.isPublished <;> rfl

/-! ### State-shape lemmas: each operation either leaves the store
unchanged or produces one of the explicitly listed post-states. -/

theorem register_state (db : DB) (body : RegisterBody) :
    (register db body).2 = db ∨
    (∃ u : UserDoc, u.enrolledCourses = [] ∧
       (register db body).2 = { db with users := db.users ++ [(freshId db, u)] }) ∨
    (∃ u1 u2 : UserDoc, ∃ pid2 : Nat, ∃ pr : ProfileDoc,
       u1.enrolledCourses = [] ∧ u2.enrolledCourses = [] ∧
       (register db body).2 = { db with
          users := setById (db.users ++ [(freshId db, u1)]) (freshId db) u2,
          profiles := db.profiles ++ [(pid2, pr)] }) := by
  unfold register
  cases he : truthy body.email with
  | none => left; rfl
  | some rawE =>
      cases hdup : db.users.any (fun p => p.2.email == normalizeEmail rawE) with
      | true => left; simp [hdup]
      | false =>
          cases hpw : truthy body.password with
          | none => left; simp [hdup]
          | some pw =>
              by_cases hvalid : userDocValid
                  { email := normalizeEmail rawE, password := PwVal.plain pw,
                    role := body.role.getD Role.student, profile := none,
                    enrolledCourses := [] } = true
              · simp only [hdup, Bool.false_eq_true, if_false, hvalid, if_true]
                cases hfn : truthy body.firstName with
                | none =>
                    right; left
                    exact ⟨_, rfl, rfl⟩
                | some fn =>
                    cases hln : truthy body.lastName with
                    | none =>
                        right; left
                        exact ⟨_, rfl, rfl⟩
                    | some ln =>
                        dsimp only
                        by_cases hlen : (decide (strLen fn ≤ 50)
                            && decide (strLen ln ≤ 50)) = true
                        · rw [if_pos hlen]
                          right; right
                          exact ⟨_, _, _, _, rfl, rfl, rfl⟩
                        · rw [if_neg hlen]
                          right; left
                          exact ⟨_, rfl, rfl⟩
              · simp only [hdup, Bool.false_eq_true, if_false]
                rw [if_neg hvalid]
                left; rfl

theorem updateUser_state (db : DB) (pid tid : Nat) (body : UpdateUserBody) :
    (updateUser db pid tid body).2 = db ∨
    ∃ tu d, lookup db.users tid = some tu ∧
      d.enrolledCourses = tu.enrolledCourses ∧
      d.profile = tu.profile ∧
      d.password = tu.password ∧
      (d.role = tu.role ∨
        ∃ pu, lookup db.users pid = some pu ∧ pu.role = Role.admin) ∧
      (updateUser db pid tid body).2 = { db with users := setById db.users tid d } := by
  unfold updateUser
  cases hpu : lookup db.users pid with
  | none => left; rfl
  | some pu =>
      cases htu : lookup db.users tid with
      | none => left; rfl
      | some tu =>
          dsimp only
          by_cases hauth : (decide (pid ≠ tid) && decide (pu.role ≠ Role.admin)) = true
          · rw [if_pos hauth]; left; rfl
          · rw [if_neg hauth]
            cases he : truthy body.email with
            | none =>
                cases hr : body.role with
                | none =>
                    dsimp only
                    cases hsave : userSave db tid tu false with
                    | none => left; rfl
                    | some db1 =>
                        right
                        refine ⟨tu, preSaveHashPassword tu false, rfl, rfl, rfl, rfl,
                          Or.inl rfl, ?_⟩
                        unfold userSave at hsave
                        split at hsave
                        · exact (Option.some.inj hsave).symm
                        · cases hsave
                | some r =>
                    dsimp only
                    by_cases hadm : pu.role = Role.admin
                    · rw [if_pos hadm]
                      cases hsave : userSave db tid { tu with role := r } false with
                      | none => left; rfl
                      | some db1 =>
                          right
                          refine ⟨tu, preSaveHashPassword { tu with role := r } false,
                            rfl, rfl, rfl, rfl, Or.inr ⟨pu, rfl, hadm⟩, ?_⟩
                          unfold userSave at hsave
                          split at hsave
                          · exact (Option.some.inj hsave).symm
                          · cases hsave
                    · rw [if_neg hadm]
                      cases hsave : userSave db tid tu false with
                      | none => left; rfl
                      | some db1 =>
                          right
                          refine ⟨tu, preSaveHashPassword tu false, rfl, rfl, rfl, rfl,
                            Or.inl rfl, ?_⟩
                          unfold userSave at hsave
                          split at hsave
                          · exact (Option.some.inj hsave).symm
                          · cases hsave
            | some e =>
                cases hr : body.role with
                | none =>
                    dsimp only
                    cases hsave : userSave db tid { tu with email := normalizeEmail e } false with
                    | none => left; rfl
                    | some db1 =>
                        right
                        refine ⟨tu, preSaveHashPassword { tu with email := normalizeEmail e } false,
                          rfl, rfl, rfl, rfl, Or.inl rfl, ?_⟩
                        unfold userSave at hsave
                        split at hsave
                        · exact (Option.some.inj hsave).symm
                        · cases hsave
                | some r =>
                    dsimp only
                    by_cases hadm : pu.role = Role.admin
                    · rw [if_pos hadm]
                      cases hsave : userSave db tid
                          { tu with email := normalizeEmail e, role := r } false with
                      | none => left; rfl
                      | some db1 =>
                          right
                          refine ⟨tu,
                            preSaveHashPassword { tu with email := normalizeEmail e, role := r } false,
                            rfl, rfl, rfl, rfl, Or.inr ⟨pu, rfl, hadm⟩, ?_⟩
                          unfold userSave at hsave
                          split at hsave
                          · exact (Option.some.inj hsave).symm
                          · cases hsave
                    · rw [if_neg hadm]
                      cases hsave : userSave db tid { tu with email := normalizeEmail e } false with
                      | none => left; rfl
                      | some db1 =>
                          right
                          refine ⟨tu,
                            preSaveHashPassword { tu with email := normalizeEmail e } false,
                            rfl, rfl, rfl, rfl, Or.inl rfl, ?_⟩
                          unfold userSave at hsave
                          split at hsave
                          · exact (Option.some.inj hsave).symm
                          · cases hsave

/-- C2: the pre-save hook leaves the persisted password untouched when
the password path was not modified, and the user-update handler never
modifies that path, so after any user update (for example one changing
only the email) every stored account keeps exactly the password hash it
had before the save. -/
theorem updateUser_preserves_password :
    (∀ u : UserDoc, preSaveHashPassword u false = u) ∧
    ∀ db pid tid body uid u u2,
      lookup db.users uid = some u →
      lookup (updateUser db pid tid body).2.users uid = some u2 →
      u2.password = u.password := by
  refine ⟨fun u => rfl, ?_⟩
  intro db pid tid body uid u u2 h1 h2
  rcases updateUser_state db pid tid body with heq | ⟨tu, d, htu, -, -, hpw, -, heq⟩
  · rw [heq, h1] at h2
    obtain rfl := Option.some.inj h2
    rfl
  · rw [heq] at h2
    try dsimp only at h2
    rw [lookup_setById] at h2
    by_cases ht : tid = uid
    · rw [if_pos ht, h1] at h2
      try dsimp only at h2
      obtain rfl := Option.some.inj h2
      subst ht
      rw [h1] at htu
      obtain rfl := Option.some.inj htu
      exact hpw
    · rw [if_neg ht, h1] at h2
      obtain rfl := Option.some.inj h2
      rfl

/-- Witness for `updateUser_preserves_password`: the student updates
their own email; the stored hash of account 1 is unchanged by the
update. -/
theorem updateUser_preserves_password_witness :
    lookup dbStudent1.users 1 = some uStudentDoc ∧
    (updateUser dbStudent1 1 1 emailOnlyUpdate).1
      = UserResult.updated200 1 "b@x.com" Role.student ∧
    lookup (updateUser dbStudent1 1 1 emailOnlyUpdate).2.users 1
      = some { uStudentDoc with email := "b@x.com" } ∧
    ({ uStudentDoc with email := "b@x.com" } : UserDoc).password
      = uStudentDoc.password :=
  ⟨by decide, by decide, by decide,
    updateUser_preserves_password.2 dbStudent1 1 1 emailOnlyUpdate 1
      uStudentDoc { uStudentDoc with email := "b@x.com" } (by decide) (by decide)⟩

theorem deleteUser_state (db : DB) (pid tid : Nat) :
    (deleteUser db pid tid).2 = db ∨
    ((∃ pu, lookup db.users pid = some pu ∧ pu.role = Role.admin) ∧
      (deleteUser db pid tid).2 = { db with users := removeById db.users tid }) := by
  unfold deleteUser
  cases hpu : lookup db.users pid with
  | none => left; rfl
  | some pu =>
      dsimp only
      by_cases hrole : pu.role ≠ Role.admin
      · rw [if_pos hrole]; left; rfl
      · rw [if_neg hrole]
        cases htu : lookup db.users tid with
        | none => left; rfl
        | some tu =>
            right
            exact ⟨⟨pu, rfl, not_not.mp hrole⟩, rfl⟩

theorem createCourse_state (db : DB) (pid : Nat) (body : CourseBody) :
    (createCourse db pid body).2 = db ∨
    ∃ doc : CourseDoc, doc.enrolledStudents = [] ∧ doc.instructor = pid ∧
      ((doc.categories = [] ∧
         (createCourse db pid body).2
           = { db with courses := db.courses ++ [(freshId db, doc)] }) ∨
       (∃ l, body.categories = some l ∧ doc.categories = l ∧
         (createCourse db pid body).2 = { db with
            courses := db.courses ++ [(freshId db, doc)],
            categories := addCourseToCats db.categories l (freshId db) })) := by
  unfold createCourse
  cases hpu : lookup db.users pid with
  | none => left; rfl
  | some pu =>
      dsimp only
      by_cases hrole : (decide (pu.role ≠ Role.instructor)
          && decide (pu.role ≠ Role.admin)) = true
      · rw [if_pos hrole]; left; rfl
      · rw [if_neg hrole]
        by_cases hv : (body.price.isSome && courseDocValid (mkCourseDoc pid body)) = true
        · rw [if_pos hv]
          cases hcats : body.categories with
          | none =>
              dsimp only
              right
              refine ⟨mkCourseDoc pid body, rfl, rfl, Or.inl ⟨?_, rfl⟩⟩
              simp [mkCourseDoc, hcats]
          | some l =>
              dsimp only
              cases hle : l.isEmpty with
              | true =>
                  right
                  refine ⟨mkCourseDoc pid body, rfl, rfl, Or.inl ⟨?_, rfl⟩⟩
                  have hl : l = [] := by simpa using hle
                  simp [mkCourseDoc, hcats, hl]
              | false =>
                  right
                  refine ⟨mkCourseDoc pid body, rfl, rfl, Or.inr ⟨l, rfl, ?_, rfl⟩⟩
                  simp [mkCourseDoc, hcats]
        · rw [if_neg hv]; left; rfl

theorem updateCourse_state (db : DB) (pid cid : Nat) (body : CourseBody) :
    (updateCourse db pid cid body).2 = db ∨
    (∃ c c8, lookup db.courses cid = some c ∧
       c8.enrolledStudents = c.enrolledStudents ∧ c8.categories = c.categories ∧
       (updateCourse db pid cid body).2
         = { db with courses := setById db.courses cid c8 }) ∨
    (∃ c l, lookup db.courses cid = some c ∧ body.categories = some l ∧
       (((updateCourse db pid cid body).1 = CourseResult.validationFailed400 ∧
         (updateCourse db pid cid body).2 = { db with
            categories := addCourseToCats (pullCourseFromCats db.categories cid) l cid }) ∨
        ∃ c8, c8.enrolledStudents = c.enrolledStudents ∧ c8.categories = l ∧
          (updateCourse db pid cid body).2 = { db with
            categories := addCourseToCats (pullCourseFromCats db.categories cid) l cid,
            courses := setById db.courses cid c8 })) := by
  unfold updateCourse
  cases hpu : lookup db.users pid with
  | none => left; rfl
  | some pu =>
      dsimp only
      by_cases hrole : (decide (pu.role ≠ Role.instructor)
          && decide (pu.role ≠ Role.admin)) = true
      · rw [if_pos hrole]; left; rfl
      · rw [if_neg hrole]
        cases hc : lookup db.courses cid with
        | none => left; rfl
        | some c =>
            dsimp only
            by_cases hown : (decide (c.instructor ≠ pid)
                && decide (pu.role ≠ Role.admin)) = true
            · rw [if_pos hown]; left; rfl
            · rw [if_neg hown]
              cases hcats : body.categories with
              | none =>
                  dsimp only
                  by_cases hvalid : courseDocValid (applyCourseUpdates c body) = true
                  · rw [if_pos hvalid]
                    right; left
                    exact ⟨c, applyCourseUpdates c body, rfl,
                      applyCourseUpdates_es c body, applyCourseUpdates_categories c body, rfl⟩
                  · rw [if_neg hvalid]; left; rfl
              | some l =>
                  dsimp only
                  by_cases hvalid : courseDocValid
                      { applyCourseUpdates c body with categories := l } = true
                  · rw [if_pos hvalid]
                    right; right
                    refine ⟨c, l, rfl, rfl, Or.inr
                      ⟨{ applyCourseUpdates c body with categories := l },
                        applyCourseUpdates_es c body, rfl, rfl⟩⟩
                  · rw [if_neg hvalid]
                    right; right
                    exact ⟨c, l, rfl, rfl, Or.inl ⟨rfl, rfl⟩⟩

theorem deleteCourse_state (db : DB) (pid cid : Nat) :
    (deleteCourse db pid cid).2 = db ∨
    (deleteCourse db pid cid).2 = { db with
      categories := pullCourseFromCats db.categories cid,
      users := updateWhere db.users (fun _ u => u.enrolledCourses.contains cid)
        (fun u => { u with enrolledCourses := pull u.enrolledCourses cid }),
      courses := removeById db.courses cid } := by
  unfold deleteCourse
  cases hpu : lookup db.users pid with
  | none => left; rfl
  | some pu =>
      dsimp only
      by_cases hrole : (decide (pu.role ≠ Role.instructor)
          && decide (pu.role ≠ Role.admin)) = true
      · rw [if_pos hrole]; left; rfl
      · rw [if_neg hrole]
        cases hc : lookup db.courses cid with
        | none => left; rfl
        | some c =>
            dsimp only
            by_cases hown : (decide (c.instructor ≠ pid)
                && decide (pu.role ≠ Role.admin)) = true
            · rw [if_pos hown]; left; rfl
            · rw [if_neg hown]; right; rfl

theorem enroll_state (db : DB) (pid cid : Nat) :
    (enrollInCourse db pid cid).2 = db ∨
    ∃ c, lookup db.courses cid = some c ∧
      c.enrolledStudents.contains pid = false ∧
      (enrollInCourse db pid cid).2 = { db with
        courses := setById db.courses cid
          { c with enrolledStudents := c.enrolledStudents ++ [pid] },
        users := updateWhere db.users (fun i _ => i == pid)
          (fun u => { u with enrolledCourses := addToSet u.enrolledCourses cid }) } := by
  unfold enrollInCourse
  cases hpu : lookup db.users pid with
  | none => left; rfl
  | some pu =>
      cases hc : lookup db.courses cid with
      | none => left; rfl
      | some c =>
          dsimp only
          cases hin : c.enrolledStudents.contains pid with
          | true => left; rfl
          | false =>
              by_cases hvalid : courseDocValid
                  { c with enrolledStudents := c.enrolledStudents ++ [pid] } = true
              · rw [if_pos hvalid]
                right
                exact ⟨c, rfl, hin, rfl⟩
              · rw [if_neg hvalid]; left; rfl

theorem unenroll_state (db : DB) (pid cid : Nat) :
    (unenrollFromCourse db pid cid).2 = db ∨
    ∃ c, lookup db.courses cid = some c ∧
      c.enrolledStudents.contains pid = true ∧
      (unenrollFromCourse db pid cid).2 = { db with
        courses := setById db.courses cid
          { c with enrolledStudents := pull c.enrolledStudents pid },
        users := updateWhere db.users (fun i _ => i == pid)
          (fun u => { u with enrolledCourses := pull u.enrolledCourses cid }) } := by
  unfold unenrollFromCourse
  cases hpu : lookup db.users pid with
  | none => left; rfl
  | some pu =>
      cases hc : lookup db.courses cid with
      | none => left; rfl
      | some c =>
          dsimp only
          cases hin : c.enrolledStudents.contains pid with
          | false => left; rfl
          | true =>
              by_cases hvalid : courseDocValid
                  { c with enrolledStudents := pull c.enrolledStudents pid } = true
              · rw [if_pos hvalid]
                right
                exact ⟨c, rfl, hin, rfl⟩
              · rw [if_neg hvalid]; left; rfl

theorem createCategory_state (db : DB) (pid : Nat) (body : CategoryBody) :
    (createCategory db pid body).2 = db ∨
    ∃ k : CategoryDoc, k.courses = [] ∧
      (createCategory db pid body).2
        = { db with categories := db.categories ++ [(freshId db, k)] } := by
  unfold createCategory
  cases hpu : lookup db.users pid with
  | none => left; rfl
  | some pu =>
      dsimp only
      by_cases hrole : pu.role ≠ Role.admin
      · rw [if_pos hrole]; left; rfl
      · rw [if_neg hrole]
        cases hn : body.name with
        | none => left; rfl
        | some nm =>
            dsimp only
            cases hdup : db.categories.any (fun p => p.2.name == normalizeTrim nm) with
            | true => left; rfl
            | false =>
                by_cases hvalid : categoryDocValid
                    { name := normalizeTrim nm, description := body.description.getD "",
                      courses := [] } = true
                · rw [if_pos hvalid]
                  right
                  exact ⟨_, rfl, rfl⟩
                · rw [if_neg hvalid]; left; rfl

theorem updateCategory_state (db : DB) (pid kid : Nat) (body : CategoryBody) :
    (updateCategory db pid kid body).2 = db ∨
    ∃ k k2, lookup db.categories kid = some k ∧ k2.courses = k.courses ∧
      (updateCategory db pid kid body).2
        = { db with categories := setById db.categories kid k2 } := by
  unfold updateCategory
  cases hpu : lookup db.users pid with
  | none => left; rfl
  | some pu =>
      dsimp only
      by_cases hrole : pu.role ≠ Role.admin
      · rw [if_pos hrole]; left; rfl
      · rw [if_neg hrole]
        cases hk : lookup db.categories kid with
        | none => left; rfl
        | some k =>
            dsimp only
            cases hn : truthy body.name with
            | none =>
                cases hd : body.description with
                | none =>
                    dsimp only
                    by_cases hok : (categoryDocValid k
                        && !(db.categories.any fun p => p.1 ≠ kid && p.2.name == k.name)) = true
                    · rw [if_pos hok]
                      right
                      exact ⟨k, k, rfl, rfl, rfl⟩
                    · rw [if_neg hok]; left; rfl
                | some d =>
                    dsimp only
                    by_cases hok : (categoryDocValid { k with description := d }
                        && !(db.categories.any fun p =>
                              p.1 ≠ kid && p.2.name == ({ k with description := d } : CategoryDoc).name)) = true
                    · rw [if_pos hok]
                      right
                      exact ⟨k, { k with description := d }, rfl, rfl, rfl⟩
                    · rw [if_neg hok]; left; rfl
            | some nm =>
                cases hd : body.description with
                | none =>
                    dsimp only
                    by_cases hok : (categoryDocValid { k with name := normalizeTrim nm }
                        && !(db.categories.any fun p =>
                              p.1 ≠ kid && p.2.name == ({ k with name := normalizeTrim nm } : CategoryDoc).name)) = true
                    · rw [if_pos hok]
                      right
                      exact ⟨k, { k with name := normalizeTrim nm }, rfl, rfl, rfl⟩
                    · rw [if_neg hok]; left; rfl
                | some d =>
                    dsimp only
                    by_cases hok : (categoryDocValid { k with name := normalizeTrim nm, description := d }
                        && !(db.categories.any fun p =>
                              p.1 ≠ kid && p.2.name == ({ k with name := normalizeTrim nm, description := d } : CategoryDoc).name)) = true
                    · rw [if_pos hok]
                      right
                      exact ⟨k, { k with name := normalizeTrim nm, description := d }, rfl, rfl, rfl⟩
                    · rw [if_neg hok]; left; rfl

theorem deleteCategory_state (db : DB) (pid kid : Nat) :
    (deleteCategory db pid kid).2 = db ∨
    (deleteCategory db pid kid).2
      = { db with categories := removeById db.categories kid } := by
  unfold deleteCategory
  cases hpu : lookup db.users pid with
  | none => left; rfl
  | some pu =>
      dsimp only
      by_cases hrole : pu.role ≠ Role.admin
      · rw [if_pos hrole]; left; rfl
      · rw [if_neg hrole]
        cases hk : lookup db.categories kid with
        | none => left; rfl
        | some k => right; rfl

theorem contains_iff {l : List Nat} {x : Nat} : l.contains x = true ↔ x ∈ l := by
  simp

/-! ### Preservation of the enrollment invariant by every operation -/

theorem em_register (db : DB) (body : RegisterBody) (h : EnrollmentMutual db) :
    EnrollmentMutual (register db body).2 := by
  rcases register_state db body with heq | ⟨u, hec, heq⟩ |
    ⟨u1, u2, pid2, pr, hec1, hec2, heq⟩
  · rw [heq]; exact h
  · rw [heq]
    intro cid c uid u0 hc hu
    try dsimp only at hc hu
    rw [lookup_append_single] at hu
    cases hdb : lookup db.users uid with
    | some v =>
        rw [hdb] at hu
        try dsimp only at hu
        obtain rfl := Option.some.inj hu
        exact h cid c uid v hc hdb
    | none =>
        rw [hdb] at hu
        try dsimp only at hu
        by_cases hf : freshId db = uid
        · rw [if_pos hf] at hu
          obtain rfl := Option.some.inj hu
          refine iff_of_false (fun hmem => ?_) (by rw [hec]; exact List.not_mem_nil _)
          exact fresh_notin_es hc (hf ▸ hmem)
        · rw [if_neg hf] at hu
          cases hu
  · rw [heq]
    intro cid c uid u0 hc hu
    try dsimp only at hc hu
    rw [lookup_setById] at hu
    by_cases hf : freshId db = uid
    · rw [if_pos hf] at hu
      cases ha : lookup (db.users ++ [(freshId db, u1)]) uid with
      | none => rw [ha] at hu; cases hu
      | some w =>
          rw [ha] at hu
          try dsimp only at hu
          obtain rfl := Option.some.inj hu
          refine iff_of_false (fun hmem => ?_) (by rw [hec2]; exact List.not_mem_nil _)
          exact fresh_notin_es hc (hf ▸ hmem)
    · rw [if_neg hf] at hu
      rw [lookup_append_single] at hu
      cases hdb : lookup db.users uid with
      | some v =>
          rw [hdb] at hu
          try dsimp only at hu
          obtain rfl := Option.some.inj hu
          exact h cid c uid v hc hdb
      | none =>
          rw [hdb] at hu
          try dsimp only at hu
          rw [if_neg hf] at hu
          cases hu

theorem em_updateUser (db : DB) (pid tid : Nat) (body : UpdateUserBody)
    (h : EnrollmentMutual db) : EnrollmentMutual (updateUser db pid tid body).2 := by
  rcases updateUser_state db pid tid body with heq | ⟨tu, d, htu, hec, hpr, -, hrole, heq⟩
  · rw [heq]; exact h
  · rw [heq]
    intro cid c uid u0 hc hu
    try dsimp only at hc hu
    rw [lookup_setById] at hu
    by_cases ht : tid = uid
    · rw [if_pos ht] at hu
      cases hdb : lookup db.users uid with
      | none => rw [hdb] at hu; cases hu
      | some w =>
          rw [hdb] at hu
          try dsimp only at hu
          obtain rfl := Option.some.inj hu
          subst ht
          rw [hec]
          exact h cid c tid tu hc htu
    · rw [if_neg ht] at hu
      exact h cid c uid u0 hc hu

theorem em_deleteUser (db : DB) (pid tid : Nat) (h : EnrollmentMutual db) :
    EnrollmentMutual (deleteUser db pid tid).2 := by
  rcases deleteUser_state db pid tid with heq | ⟨-, heq⟩
  · rw [heq]; exact h
  · rw [heq]
    intro cid c uid u0 hc hu
    try dsimp only at hc hu
    rw [lookup_removeById] at hu
    by_cases ht : tid = uid
    · rw [if_pos ht] at hu; cases hu
    · rw [if_neg ht] at hu
      exact h cid c uid u0 hc hu

theorem em_createCourse (db : DB) (pid : Nat) (body : CourseBody)
    (h : EnrollmentMutual db) : EnrollmentMutual (createCourse db pid body).2 := by
  have main : ∀ doc : CourseDoc, doc.enrolledStudents = [] →
      ∀ cid c uid u0, lookup (db.courses ++ [(freshId db, doc)]) cid = some c →
        lookup db.users uid = some u0 →
        (uid ∈ c.enrolledStudents ↔ cid ∈ u0.enrolledCourses) := by
    intro doc hes cid c uid u0 hc hu
    rw [lookup_append_single] at hc
    cases hdb : lookup db.courses cid with
    | some v =>
        rw [hdb] at hc
        try dsimp only at hc
        obtain rfl := Option.some.inj hc
        exact h cid v uid u0 hdb hu
    | none =>
        rw [hdb] at hc
        try dsimp only at hc
        by_cases hf : freshId db = cid
        · rw [if_pos hf] at hc
          obtain rfl := Option.some.inj hc
          refine iff_of_false (by rw [hes]; exact List.not_mem_nil _) (fun hmem => ?_)
          exact fresh_notin_ec hu (hf ▸ hmem)
        · rw [if_neg hf] at hc
          cases hc
  rcases createCourse_state db pid body with heq |
    ⟨doc, hes, hinstr, ⟨hcats, heq⟩ | ⟨l, hbody, hcats, heq⟩⟩
  · rw [heq]; exact h
  · rw [heq]
    intro cid c uid u0 hc hu
    try dsimp only at hc hu
    exact main doc hes cid c uid u0 hc hu
  · rw [heq]
    intro cid c uid u0 hc hu
    try dsimp only at hc hu
    exact main doc hes cid c uid u0 hc hu

theorem em_updateCourse (db : DB) (pid cid : Nat) (body : CourseBody)
    (h : EnrollmentMutual db) : EnrollmentMutual (updateCourse db pid cid body).2 := by
  have main : ∀ c c8 : CourseDoc, lookup db.courses cid = some c →
      c8.enrolledStudents = c.enrolledStudents →
      ∀ cid' c' uid u0, lookup (setById db.courses cid c8) cid' = some c' →
        lookup db.users uid = some u0 →
        (uid ∈ c'.enrolledStudents ↔ cid' ∈ u0.enrolledCourses) := by
    intro c c8 hc hes cid' c' uid u0 hc' hu
    rw [lookup_setById] at hc'
    by_cases hcc : cid = cid'
    · rw [if_pos hcc] at hc'
      subst hcc
      rw [hc] at hc'
      try dsimp only at hc'
      obtain rfl := Option.some.inj hc'
      rw [hes]
      exact h cid c uid u0 hc hu
    · rw [if_neg hcc] at hc'
      exact h cid' c' uid u0 hc' hu
  rcases updateCourse_state db pid cid body with heq |
    ⟨c, c8, hc, hes, hcats, heq⟩ | ⟨c, l, hc, hbody, ⟨-, heq⟩ | ⟨c8, hes, hcats, heq⟩⟩
  · rw [heq]; exact h
  · rw [heq]
    intro cid' c' uid u0 hc' hu
    try dsimp only at hc' hu
    exact main c c8 hc hes cid' c' uid u0 hc' hu
  · rw [heq]
    exact EM_of_components rfl rfl h
  · rw [heq]
    intro cid' c' uid u0 hc' hu
    try dsimp only at hc' hu
    exact main c c8 hc hes cid' c' uid u0 hc' hu

theorem em_deleteCourse (db : DB) (pid cid : Nat) (h : EnrollmentMutual db) :
    EnrollmentMutual (deleteCourse db pid cid).2 := by
  rcases deleteCourse_state db pid cid with heq | heq
  · rw [heq]; exact h
  · rw [heq]
    intro cid' c' uid u0 hc' hu
    try dsimp only at hc' hu
    rw [lookup_removeById] at hc'
    by_cases hcc : cid = cid'
    · rw [if_pos hcc] at hc'; cases hc'
    · rw [if_neg hcc] at hc'
      rw [lookup_updateWhere] at hu
      cases hdb : lookup db.users uid with
      | none => rw [hdb] at hu; cases hu
      | some w =>
          rw [hdb] at hu
          try dsimp only at hu
          obtain rfl := Option.some.inj hu
          try dsimp only
          by_cases hcont : w.enrolledCourses.contains cid = true
          · rw [if_pos hcont]
            have base := h cid' c' uid w hc' hdb
            constructor
            · intro hmem
              exact mem_pull.mpr ⟨base.mp hmem, fun hx => hcc (by omega)⟩
            · intro hmem
              exact base.mpr (mem_pull.mp hmem).1
          · rw [if_neg hcont]
            exact h cid' c' uid w hc' hdb

theorem em_enroll (db : DB) (pid cid : Nat) (h : EnrollmentMutual db) :
    EnrollmentMutual (enrollInCourse db pid cid).2 := by
  rcases enroll_state db pid cid with heq | ⟨c, hc, hnin, heq⟩
  · rw [heq]; exact h
  · rw [heq]
    intro cid' c' uid u0 hc' hu
    try dsimp only at hc' hu
    rw [lookup_setById] at hc'
    rw [lookup_updateWhere] at hu
    cases hdb : lookup db.users uid with
    | none => rw [hdb] at hu; cases hu
    | some w =>
        rw [hdb] at hu
        try dsimp only at hu
        obtain rfl := Option.some.inj hu
        try dsimp only
        by_cases hup : (uid == pid) = true
        · have hupe : uid = pid := by simpa using hup
          rw [if_pos hup]
          by_cases hcc : cid = cid'
          · rw [if_pos hcc] at hc'
            subst hcc
            rw [hc] at hc'
            try dsimp only at hc'
            obtain rfl := Option.some.inj hc'
            refine iff_of_true ?_ ?_
            · exact mem_push.mpr (Or.inr hupe)
            · exact mem_addToSet.mpr (Or.inr rfl)
          · rw [if_neg hcc] at hc'
            have base := h cid' c' uid w hc' hdb
            constructor
            · intro hmem
              exact mem_addToSet.mpr (Or.inl (base.mp hmem))
            · intro hmem
              rcases mem_addToSet.mp hmem with hx | hx
              · exact base.mpr hx
              · exact (hcc hx.symm).elim
        · rw [if_neg hup]
          have hupe : ¬ uid = pid := by simpa using hup
          by_cases hcc : cid = cid'
          · rw [if_pos hcc] at hc'
            subst hcc
            rw [hc] at hc'
            try dsimp only at hc'
            obtain rfl := Option.some.inj hc'
            have base := h cid c uid w hc hdb
            constructor
            · intro hmem
              rcases mem_push.mp hmem with hx | hx
              · exact base.mp hx
              · exact absurd hx hupe
            · intro hmem
              exact mem_push.mpr (Or.inl (base.mpr hmem))
          · rw [if_neg hcc] at hc'
            exact h cid' c' uid w hc' hdb

theorem em_unenroll (db : DB) (pid cid : Nat) (h : EnrollmentMutual db) :
    EnrollmentMutual (unenrollFromCourse db pid cid).2 := by
  rcases unenroll_state db pid cid with heq | ⟨c, hc, hin, heq⟩
  · rw [heq]; exact h
  · rw [heq]
    intro cid' c' uid u0 hc' hu
    try dsimp only at hc' hu
    rw [lookup_setById] at hc'
    rw [lookup_updateWhere] at hu
    cases hdb : lookup db.users uid with
    | none => rw [hdb] at hu; cases hu
    | some w =>
        rw [hdb] at hu
        try dsimp only at hu
        obtain rfl := Option.some.inj hu
        try dsimp only
        by_cases hup : (uid == pid) = true
        · have hupe : uid = pid := by simpa using hup
          rw [if_pos hup]
          by_cases hcc : cid = cid'
          · rw [if_pos hcc] at hc'
            subst hcc
            rw [hc] at hc'
            try dsimp only at hc'
            obtain rfl := Option.some.inj hc'
            refine iff_of_false ?_ ?_
            · intro hmem
              exact (mem_pull.mp hmem).2 hupe
            · intro hmem
              exact (mem_pull.mp hmem).2 rfl
          · rw [if_neg hcc] at hc'
            have base := h cid' c' uid w hc' hdb
            constructor
            · intro hmem
              exact mem_pull.mpr ⟨base.mp hmem, fun hx => hcc (by omega)⟩
            · intro hmem
              exact base.mpr (mem_pull.mp hmem).1
        · rw [if_neg hup]
          have hupe : ¬ uid = pid := by simpa using hup
          by_cases hcc : cid = cid'
          · rw [if_pos hcc] at hc'
            subst hcc
            rw [hc] at hc'
            try dsimp only at hc'
            obtain rfl := Option.some.inj hc'
            have base := h cid c uid w hc hdb
            constructor
            · intro hmem
              exact base.mp (mem_pull.mp hmem).1
            · intro hmem
              exact mem_pull.mpr ⟨base.mpr hmem, fun hx => hupe hx⟩
          · rw [if_neg hcc] at hc'
            exact h cid' c' uid w hc' hdb

theorem em_createCategory (db : DB) (pid : Nat) (body : CategoryBody)
    (h : EnrollmentMutual db) : EnrollmentMutual (createCategory db pid body).2 := by
  rcases createCategory_state db pid body with heq | ⟨k, -, heq⟩
  · rw [heq]; exact h
  · rw [heq]; exact EM_of_components rfl rfl h

theorem em_updateCategory (db : DB) (pid kid : Nat) (body : CategoryBody)
    (h : EnrollmentMutual db) : EnrollmentMutual (updateCategory db pid kid body).2 := by
  rcases updateCategory_state db pid kid body with heq | ⟨k, k2, -, -, heq⟩
  · rw [heq]; exact h
  · rw [heq]; exact EM_of_components rfl rfl h

theorem em_deleteCategory (db : DB) (pid kid : Nat) (h : EnrollmentMutual db) :
    EnrollmentMutual (deleteCategory db pid kid).2 := by
  rcases deleteCategory_state db pid kid with heq | heq
  · rw [heq]; exact h
  · rw [heq]; exact EM_of_components rfl rfl h

theorem em_applyOp (db : DB) (op : Op) (h : EnrollmentMutual db) :
    EnrollmentMutual (applyOp db op) := by
  cases op with
  | register body => exact em_register db body h
  | updateUser pid tid body => exact em_updateUser db pid tid body h
  | deleteUser pid tid => exact em_deleteUser db pid tid h
  | createCourse pid body => exact em_createCourse db pid body h
  | updateCourse pid cid body => exact em_updateCourse db pid cid body h
  | deleteCourse pid cid => exact em_deleteCourse db pid cid h
  | enroll pid cid => exact em_enroll db pid cid h
  | unenroll pid cid => exact em_unenroll db pid cid h
  | createCategory pid body => exact em_createCategory db pid body h
  | updateCategory pid kid body => exact em_updateCategory db pid kid body h
  | deleteCategory pid kid => exact em_deleteCategory db pid kid h

theorem not_mem_of_contains_false {l : List Nat} {x : Nat}
    (h : l.contains x = false) : x ∉ l := by
  intro hm
  rw [contains_iff.mpr hm] at h
  exact Bool.noConfusion h

/-! ### Preservation of the course-category invariant -/

theorem cm_register (db : DB) (body : RegisterBody) (h : CategoryMutual db) :
    CategoryMutual (register db body).2 := by
  rcases register_state db body with heq | ⟨u, -, heq⟩ | ⟨u1, u2, pid2, pr, -, -, heq⟩ <;>
    rw [heq]
  · exact h
  · exact CM_of_components rfl rfl h
  · exact CM_of_components rfl rfl h

theorem cm_updateUser (db : DB) (pid tid : Nat) (body : UpdateUserBody)
    (h : CategoryMutual db) : CategoryMutual (updateUser db pid tid body).2 := by
  rcases updateUser_state db pid tid body with heq | ⟨tu, d, -, -, -, -, -, heq⟩ <;> rw [heq]
  · exact h
  · exact CM_of_components rfl rfl h

theorem cm_deleteUser (db : DB) (pid tid : Nat) (h : CategoryMutual db) :
    CategoryMutual (deleteUser db pid tid).2 := by
  rcases deleteUser_state db pid tid with heq | ⟨-, heq⟩ <;> rw [heq]
  · exact h
  · exact CM_of_components rfl rfl h

theorem cm_enroll (db : DB) (pid cid : Nat) (h : CategoryMutual db) :
    CategoryMutual (enrollInCourse db pid cid).2 := by
  rcases enroll_state db pid cid with heq | ⟨c, hc, -, heq⟩
  · rw [heq]; exact h
  · rw [heq]
    intro cid' c' kid k' hc' hk'
    try dsimp only at hc' hk'
    rw [lookup_setById] at hc'
    by_cases hcc : cid = cid'
    · rw [if_pos hcc] at hc'
      subst hcc
      rw [hc] at hc'
      try dsimp only at hc'
      obtain rfl := Option.some.inj hc'
      exact h cid c kid k' hc hk'
    · rw [if_neg hcc] at hc'
      exact h cid' c' kid k' hc' hk'

theorem cm_unenroll (db : DB) (pid cid : Nat) (h : CategoryMutual db) :
    CategoryMutual (unenrollFromCourse db pid cid).2 := by
  rcases unenroll_state db pid cid with heq | ⟨c, hc, -, heq⟩
  · rw [heq]; exact h
  · rw [heq]
    intro cid' c' kid k' hc' hk'
    try dsimp only at hc' hk'
    rw [lookup_setById] at hc'
    by_cases hcc : cid = cid'
    · rw [if_pos hcc] at hc'
      subst hcc
      rw [hc] at hc'
      try dsimp only at hc'
      obtain rfl := Option.some.inj hc'
      exact h cid c kid k' hc hk'
    · rw [if_neg hcc] at hc'
      exact h cid' c' kid k' hc' hk'

theorem cm_createCourse (db : DB) (pid : Nat) (body : CourseBody)
    (h : CategoryMutual db) : CategoryMutual (createCourse db pid body).2 := by
  rcases createCourse_state db pid body with heq |
    ⟨doc, hes, hinstr, ⟨hcats, heq⟩ | ⟨l, hbody, hcats, heq⟩⟩
  · rw [heq]; exact h
  · rw [heq]
    intro cid' c' kid k' hc' hk'
    try dsimp only at hc' hk'
    rw [lookup_append_single] at hc'
    cases hdb : lookup db.courses cid' with
    | some v =>
        rw [hdb] at hc'
        try dsimp only at hc'
        obtain rfl := Option.some.inj hc'
        exact h cid' v kid k' hdb hk'
    | none =>
        rw [hdb] at hc'
        try dsimp only at hc'
        by_cases hf : freshId db = cid'
        · rw [if_pos hf] at hc'
          obtain rfl := Option.some.inj hc'
          refine iff_of_false (by rw [hcats]; exact List.not_mem_nil _) (fun hmem => ?_)
          exact fresh_notin_kcourses hk' (hf ▸ hmem)
        · rw [if_neg hf] at hc'
          cases hc'
  · rw [heq]
    intro cid' c' kid k' hc' hk'
    try dsimp only at hc' hk'
    rw [addCourseToCats, lookup_updateWhere] at hk'
    cases hkb : lookup db.categories kid with
    | none => rw [hkb] at hk'; cases hk'
    | some k0 =>
        rw [hkb] at hk'
        try dsimp only at hk'
        obtain rfl := Option.some.inj hk'
        try dsimp only
        rw [lookup_append_single] at hc'
        cases hdb : lookup db.courses cid' with
        | some v =>
            rw [hdb] at hc'
            try dsimp only at hc'
            obtain rfl := Option.some.inj hc'
            have base := h cid' v kid k0 hdb hkb
            have hne : cid' ≠ freshId db := fresh_ne_course_key hdb
            by_cases hlk : l.contains kid = true
            · rw [if_pos hlk]
              constructor
              · intro hmem
                exact mem_addToSet.mpr (Or.inl (base.mp hmem))
              · intro hmem
                rcases mem_addToSet.mp hmem with hx | hx
                · exact base.mpr hx
                · exact absurd hx hne
            · rw [if_neg hlk]
              exact base
        | none =>
            rw [hdb] at hc'
            try dsimp only at hc'
            by_cases hf : freshId db = cid'
            · rw [if_pos hf] at hc'
              obtain rfl := Option.some.inj hc'
              rw [hcats]
              by_cases hlk : l.contains kid = true
              · rw [if_pos hlk]
                refine iff_of_true (contains_iff.mp hlk) ?_
                exact mem_addToSet.mpr (Or.inr hf.symm)
              · rw [if_neg hlk]
                refine iff_of_false ?_ (fun hmem => ?_)
                · exact fun hm => (not_mem_of_contains_false
                    (Bool.not_eq_true _ ▸ Bool.of_not_eq_true hlk)) hm
                · exact fresh_notin_kcourses hkb (hf ▸ hmem)
            · rw [if_neg hf] at hc'
              cases hc'

theorem cm_deleteCourse (db : DB) (pid cid : Nat) (h : CategoryMutual db) :
    CategoryMutual (deleteCourse db pid cid).2 := by
  rcases deleteCourse_state db pid cid with heq | heq
  · rw [heq]; exact h
  · rw [heq]
    intro cid' c' kid k' hc' hk'
    try dsimp only at hc' hk'
    rw [lookup_removeById] at hc'
    by_cases hcc : cid = cid'
    · rw [if_pos hcc] at hc'; cases hc'
    · rw [if_neg hcc] at hc'
      rw [pullCourseFromCats, lookup_updateWhere] at hk'
      cases hkb : lookup db.categories kid with
      | none => rw [hkb] at hk'; cases hk'
      | some k0 =>
          rw [hkb] at hk'
          try dsimp only at hk'
          obtain rfl := Option.some.inj hk'
          try dsimp only
          have base := h cid' c' kid k0 hc' hkb
          by_cases hpc : k0.courses.contains cid = true
          · rw [if_pos hpc]
            constructor
            · intro hmem
              exact mem_pull.mpr ⟨base.mp hmem, fun hx => hcc (by omega)⟩
            · intro hmem
              exact base.mpr (mem_pull.mp hmem).1
          · rw [if_neg hpc]
            exact base

theorem cm_updateCourse (db : DB) (pid cid : Nat) (body : CourseBody)
    (h : CategoryMutual db)
    (hsafe : categorySyncSafe db (Op.updateCourse pid cid body)) :
    CategoryMutual (updateCourse db pid cid body).2 := by
  rcases updateCourse_state db pid cid body with heq |
    ⟨c, c8, hc, hes, hcats, heq⟩ |
    ⟨c, l, hc, hbody, ⟨hres, heq⟩ | ⟨c8, hes, hcats, heq⟩⟩
  · rw [heq]; exact h
  · rw [heq]
    intro cid' c' kid k' hc' hk'
    try dsimp only at hc' hk'
    rw [lookup_setById] at hc'
    by_cases hcc : cid = cid'
    · rw [if_pos hcc] at hc'
      subst hcc
      rw [hc] at hc'
      try dsimp only at hc'
      obtain rfl := Option.some.inj hc'
      rw [hcats]
      exact h cid c kid k' hc hk'
    · rw [if_neg hcc] at hc'
      exact h cid' c' kid k' hc' hk'
  · exact absurd hsafe (by simp [categorySyncSafe, hbody, hres])
  · rw [heq]
    intro cid' c' kid k' hc' hk'
    try dsimp only at hc' hk'
    rw [addCourseToCats, lookup_updateWhere] at hk'
    rw [pullCourseFromCats, lookup_updateWhere] at hk'
    cases hkb : lookup db.categories kid with
    | none => rw [hkb] at hk'; cases hk'
    | some k0 =>
        rw [hkb] at hk'
        try dsimp only at hk'
        obtain rfl := Option.some.inj hk'
        try dsimp only
        rw [lookup_setById] at hc'
        have hmid : ∀ x, x ≠ cid →
            (x ∈ (if k0.courses.contains cid = true then
                { k0 with courses := pull k0.courses cid } else k0).courses
              ↔ x ∈ k0.courses) := by
          intro x hx
          by_cases hpc : k0.courses.contains cid = true
          · rw [if_pos hpc]
            exact ⟨fun hm => (mem_pull.mp hm).1, fun hm => mem_pull.mpr ⟨hm, hx⟩⟩
          · rw [if_neg hpc]
        have hmidc : cid ∉ (if k0.courses.contains cid = true then
            { k0 with courses := pull k0.courses cid } else k0).courses := by
          by_cases hpc : k0.courses.contains cid = true
          · rw [if_pos hpc]
            intro hm
            exact (mem_pull.mp hm).2 rfl
          · rw [if_neg hpc]
            exact not_mem_of_contains_false (Bool.of_not_eq_true hpc)
        by_cases hcc : cid = cid'
        · rw [if_pos hcc] at hc'
          subst hcc
          rw [hc] at hc'
          try dsimp only at hc'
          obtain rfl := Option.some.inj hc'
          rw [hcats]
          by_cases hlk : l.contains kid = true
          · rw [if_pos hlk]
            refine iff_of_true (contains_iff.mp hlk) ?_
            exact mem_addToSet.mpr (Or.inr rfl)
          · rw [if_neg hlk]
            exact iff_of_false (not_mem_of_contains_false (Bool.of_not_eq_true hlk)) hmidc
        · rw [if_neg hcc] at hc'
          have base := h cid' c' kid k0 hc' hkb
          have hne : cid' ≠ cid := fun hx => hcc hx.symm
          by_cases hlk : l.contains kid = true
          · rw [if_pos hlk]
            constructor
            · intro hmem
              exact mem_addToSet.mpr (Or.inl ((hmid cid' hne).mpr (base.mp hmem)))
            · intro hmem
              rcases mem_addToSet.mp hmem with hx | hx
              · exact base.mpr ((hmid cid' hne).mp hx)
              · exact absurd hx hne
          · rw [if_neg hlk]
            rw [hmid cid' hne]
            exact base

theorem cm_createCategory (db : DB) (pid : Nat) (body : CategoryBody)
    (h : CategoryMutual db) : CategoryMutual (createCategory db pid body).2 := by
  rcases createCategory_state db pid body with heq | ⟨k, hk, heq⟩
  · rw [heq]; exact h
  · rw [heq]
    intro cid' c' kid k' hc' hk'
    try dsimp only at hc' hk'
    rw [lookup_append_single] at hk'
    cases hkb : lookup db.categories kid with
    | some v =>
        rw [hkb] at hk'
        try dsimp only at hk'
        obtain rfl := Option.some.inj hk'
        exact h cid' c' kid v hc' hkb
    | none =>
        rw [hkb] at hk'
        try dsimp only at hk'
        by_cases hf : freshId db = kid
        · rw [if_pos hf] at hk'
          obtain rfl := Option.some.inj hk'
          refine iff_of_false (fun hmem => ?_) (by rw [hk]; exact List.not_mem_nil _)
          exact fresh_notin_ccats hc' (hf ▸ hmem)
        · rw [if_neg hf] at hk'
          cases hk'

theorem cm_updateCategory (db : DB) (pid kid : Nat) (body : CategoryBody)
    (h : CategoryMutual db) : CategoryMutual (updateCategory db pid kid body).2 := by
  rcases updateCategory_state db pid kid body with heq | ⟨k, k2, hk, hkc, heq⟩
  · rw [heq]; exact h
  · rw [heq]
    intro cid' c' kid' k' hc' hk'
    try dsimp only at hc' hk'
    rw [lookup_setById] at hk'
    by_cases hkk : kid = kid'
    · rw [if_pos hkk] at hk'
      subst hkk
      rw [hk] at hk'
      try dsimp only at hk'
      obtain rfl := Option.some.inj hk'
      rw [hkc]
      exact h cid' c' kid k hc' hk
    · rw [if_neg hkk] at hk'
      exact h cid' c' kid' k' hc' hk'

theorem cm_deleteCategory (db : DB) (pid kid : Nat) (h : CategoryMutual db) :
    CategoryMutual (deleteCategory db pid kid).2 := by
  rcases deleteCategory_state db pid kid with heq | heq
  · rw [heq]; exact h
  · rw [heq]
    intro cid' c' kid' k' hc' hk'
    try dsimp only at hc' hk'
    rw [lookup_removeById] at hk'
    by_cases hkk : kid = kid'
    · rw [if_pos hkk] at hk'; cases hk'
    · rw [if_neg hkk] at hk'
      exact h cid' c' kid' k' hc' hk'

/-- C6 amended: every operation preserves the course-category invariant
except a course update that supplies a categories list and then fails
document validation at the save. -/
theorem categoryMutual_preserved (db : DB) (op : Op) (h : CategoryMutual db)
    (hsafe : categorySyncSafe db op) : CategoryMutual (applyOp db op) := by
  cases op with
  | register body => exact cm_register db body h
  | updateUser pid tid body => exact cm_updateUser db pid tid body h
  | deleteUser pid tid => exact cm_deleteUser db pid tid h
  | createCourse pid body => exact cm_createCourse db pid body h
  | updateCourse pid cid body => exact cm_updateCourse db pid cid body h hsafe
  | deleteCourse pid cid => exact cm_deleteCourse db pid cid h
  | enroll pid cid => exact cm_enroll db pid cid h
  | unenroll pid cid => exact cm_unenroll db pid cid h
  | createCategory pid body => exact cm_createCategory db pid body h
  | updateCategory pid kid body => exact cm_updateCategory db pid kid body h
  | deleteCategory pid kid => exact cm_deleteCategory db pid kid h

/-! ### Role frame: operations by non-admin principals never change a
stored role -/

theorem rf_register (db : DB) (body : RegisterBody) (uid : Nat) (u u2 : UserDoc)
    (h1 : lookup db.users uid = some u)
    (h2 : lookup (register db body).2.users uid = some u2) : u2.role = u.role := by
  rcases register_state db body with heq | ⟨w, -, heq⟩ | ⟨w1, w2, pid2, pr, -, -, heq⟩
  · rw [heq, h1] at h2
    obtain rfl := Option.some.inj h2
    rfl
  · rw [heq] at h2
    try dsimp only at h2
    rw [lookup_append_single, h1] at h2
    try dsimp only at h2
    obtain rfl := Option.some.inj h2
    rfl
  · rw [heq] at h2
    try dsimp only at h2
    have hf : ¬ freshId db = uid := fun hx => fresh_ne_user_key h1 hx.symm
    rw [lookup_setById, if_neg hf, lookup_append_single, h1] at h2
    try dsimp only at h2
    obtain rfl := Option.some.inj h2
    rfl

theorem rf_updateUser (db : DB) (pid tid : Nat) (body : UpdateUserBody)
    (hna : nonAdminOp db (Op.updateUser pid tid body) = true)
    (uid : Nat) (u u2 : UserDoc)
    (h1 : lookup db.users uid = some u)
    (h2 : lookup (updateUser db pid tid body).2.users uid = some u2) :
    u2.role = u.role := by
  rcases updateUser_state db pid tid body with heq | ⟨tu, d, htu, -, -, -, hrole, heq⟩
  · rw [heq, h1] at h2
    obtain rfl := Option.some.inj h2
    rfl
  · rcases hrole with hdr | ⟨pu, hpu, hadm⟩
    · rw [heq] at h2
      try dsimp only at h2
      rw [lookup_setById] at h2
      by_cases ht : tid = uid
      · rw [if_pos ht, h1] at h2
        try dsimp only at h2
        obtain rfl := Option.some.inj h2
        subst ht
        rw [h1] at htu
        obtain rfl := Option.some.inj htu
        exact hdr
      · rw [if_neg ht, h1] at h2
        obtain rfl := Option.some.inj h2
        rfl
    · exfalso
      simp [nonAdminOp, opPrincipal, hpu] at hna
      exact hna hadm

theorem rf_deleteUser (db : DB) (pid tid : Nat)
    (hna : nonAdminOp db (Op.deleteUser pid tid) = true)
    (uid : Nat) (u u2 : UserDoc)
    (h1 : lookup db.users uid = some u)
    (h2 : lookup (deleteUser db pid tid).2.users uid = some u2) : u2.role = u.role := by
  rcases deleteUser_state db pid tid with heq | ⟨⟨pu, hpu, hadm⟩, heq⟩
  · rw [heq, h1] at h2
    obtain rfl := Option.some.inj h2
    rfl
  · exfalso
    simp [nonAdminOp, opPrincipal, hpu] at hna
    exact hna hadm

theorem rf_createCourse (db : DB) (pid : Nat) (body : CourseBody)
    (uid : Nat) (u u2 : UserDoc)
    (h1 : lookup db.users uid = some u)
    (h2 : lookup (createCourse db pid body).2.users uid = some u2) : u2.role = u.role := by
  rcases createCourse_state db pid body with heq |
    ⟨doc, -, -, ⟨-, heq⟩ | ⟨l, -, -, heq⟩⟩ <;>
    · rw [heq] at h2
      try dsimp only at h2
      rw [h1] at h2
      obtain rfl := Option.some.inj h2
      rfl

theorem rf_updateCourse (db : DB) (pid cid : Nat) (body : CourseBody)
    (uid : Nat) (u u2 : UserDoc)
    (h1 : lookup db.users uid = some u)
    (h2 : lookup (updateCourse db pid cid body).2.users uid = some u2) :
    u2.role = u.role := by
  rcases updateCourse_state db pid cid body with heq |
    ⟨c, c8, -, -, -, heq⟩ | ⟨c, l, -, -, ⟨-, heq⟩ | ⟨c8, -, -, heq⟩⟩ <;>
    · rw [heq] at h2
      try dsimp only at h2
      rw [h1] at h2
      obtain rfl := Option.some.inj h2
      rfl

theorem rf_deleteCourse (db : DB) (pid cid : Nat)
    (uid : Nat) (u u2 : UserDoc)
    (h1 : lookup db.users uid = some u)
    (h2 : lookup (deleteCourse db pid cid).2.users uid = some u2) : u2.role = u.role := by
  rcases deleteCourse_state db pid cid with heq | heq
  · rw [heq, h1] at h2
    obtain rfl := Option.some.inj h2
    rfl
  · rw [heq] at h2
    try dsimp only at h2
    rw [lookup_updateWhere, h1] at h2
    try dsimp only at h2
    obtain rfl := Option.some.inj h2
    try dsimp only
    by_cases hcont : u.enrolledCourses.contains cid = true
    · rw [if_pos hcont]
    · rw [if_neg hcont]

theorem rf_enroll (db : DB) (pid cid : Nat)
    (uid : Nat) (u u2 : UserDoc)
    (h1 : lookup db.users uid = some u)
    (h2 : lookup (enrollInCourse db pid cid).2.users uid = some u2) : u2.role = u.role := by
  rcases enroll_state db pid cid with heq | ⟨c, -, -, heq⟩
  · rw [heq, h1] at h2
    obtain rfl := Option.some.inj h2
    rfl
  · rw [heq] at h2
    try dsimp only at h2
    rw [lookup_updateWhere, h1] at h2
    try dsimp only at h2
    obtain rfl := Option.some.inj h2
    try dsimp only
    by_cases hup : (uid == pid) = true
    · rw [if_pos hup]
    · rw [if_neg hup]

theorem rf_unenroll (db : DB) (pid cid : Nat)
    (uid : Nat) (u u2 : UserDoc)
    (h1 : lookup db.users uid = some u)
    (h2 : lookup (unenrollFromCourse db pid cid).2.users uid = some u2) :
    u2.role = u.role := by
  rcases unenroll_state db pid cid with heq | ⟨c, -, -, heq⟩
  · rw [heq, h1] at h2
    obtain rfl := Option.some.inj h2
    rfl
  · rw [heq] at h2
    try dsimp only at h2
    rw [lookup_updateWhere, h1] at h2
    try dsimp only at h2
    obtain rfl := Option.some.inj h2
    try dsimp only
    by_cases hup : (uid == pid) = true
    · rw [if_pos hup]
    · rw [if_neg hup]

theorem rf_createCategory (db : DB) (pid : Nat) (body : CategoryBody)
    (uid : Nat) (u u2 : UserDoc)
    (h1 : lookup db.users uid = some u)
    (h2 : lookup (createCategory db pid body).2.users uid = some u2) :
    u2.role = u.role := by
  rcases createCategory_state db pid body with heq | ⟨k, -, heq⟩ <;>
    · rw [heq] at h2
      try dsimp only at h2
      rw [h1] at h2
      obtain rfl := Option.some.inj h2
      rfl

theorem rf_updateCategory (db : DB) (pid kid : Nat) (body : CategoryBody)
    (uid : Nat) (u u2 : UserDoc)
    (h1 : lookup db.users uid = some u)
    (h2 : lookup (updateCategory db pid kid body).2.users uid = some u2) :
    u2.role = u.role := by
  rcases updateCategory_state db pid kid body with heq | ⟨k, k2, -, -, heq⟩ <;>
    · rw [heq] at h2
      try dsimp only at h2
      rw [h1] at h2
      obtain rfl := Option.some.inj h2
      rfl

theorem rf_deleteCategory (db : DB) (pid kid : Nat)
    (uid : Nat) (u u2 : UserDoc)
    (h1 : lookup db.users uid = some u)
    (h2 : lookup (deleteCategory db pid kid).2.users uid = some u2) :
    u2.role = u.role := by
  rcases deleteCategory_state db pid kid with heq | heq <;>
    · rw [heq] at h2
      try dsimp only at h2
      rw [h1] at h2
      obtain rfl := Option.some.inj h2
      rfl

/-- C1 amended: an operation performed by a non-admin principal leaves
the stored role of every account that exists before and after it
unchanged.  (Registration can still create a fresh account with any
role, which is what refutes the claim as stated.) -/
theorem nonAdmin_role_frame (db : DB) (op : Op)
    (hna : nonAdminOp db op = true) :
    ∀ uid u u2, lookup db.users uid = some u →
      lookup (applyOp db op).users uid = some u2 → u2.role = u.role := by
  intro uid u u2 h1 h2
  cases op with
  | register body => exact rf_register db body uid u u2 h1 h2
  | updateUser pid tid body => exact rf_updateUser db pid tid body hna uid u u2 h1 h2
  | deleteUser pid tid => exact rf_deleteUser db pid tid hna uid u u2 h1 h2
  | createCourse pid body => exact rf_createCourse db pid body uid u u2 h1 h2
  | updateCourse pid cid body => exact rf_updateCourse db pid cid body uid u u2 h1 h2
  | deleteCourse pid cid => exact rf_deleteCourse db pid cid uid u u2 h1 h2
  | enroll pid cid => exact rf_enroll db pid cid uid u u2 h1 h2
  | unenroll pid cid => exact rf_unenroll db pid cid uid u u2 h1 h2
  | createCategory pid body => exact rf_createCategory db pid body uid u u2 h1 h2
  | updateCategory pid kid body => exact rf_updateCategory db pid kid body uid u u2 h1 h2
  | deleteCategory pid kid => exact rf_deleteCategory db pid kid uid u u2 h1 h2

/-- C1 counterexample: the rule fails as stated, because an anonymous
(hence non-admin) registration that supplies the admin role produces a
state containing an admin account that did not exist before. -/
theorem noAdminCreation_refuted : ¬ NoAdminCreation := by
  intro hclaim
  have h := hclaim initDB (Op.register bodyAdmin) Reachable.init (by decide) 1
    { email := "root@x.com", password := PwVal.hashed (PwVal.plain "secret1"),
      role := Role.admin, profile := some 2, enrolledCourses := [] }
    (by decide) rfl
  rcases h with ⟨u1, hu1, -⟩
  simp [initDB, lookup] at hu1

/-- Witness for `nonAdmin_role_frame`: a student who tries to promote
their own account to admin through the user-update endpoint keeps the
student role. -/
theorem nonAdmin_role_frame_witness :
    nonAdminOp dbStudent1 (Op.updateUser 1 1 roleEscalationUpdate) = true ∧
    lookup dbStudent1.users 1 = some uStudentDoc ∧
    lookup (applyOp dbStudent1 (Op.updateUser 1 1 roleEscalationUpdate)).users 1
      = some uStudentDoc ∧
    uStudentDoc.role = uStudentDoc.role :=
  ⟨by decide, by decide, by decide,
    nonAdmin_role_frame dbStudent1 (Op.updateUser 1 1 roleEscalationUpdate) (by decide)
      1 uStudentDoc uStudentDoc (by decide) (by decide)⟩

/-- C5: the enrollment lists of courses and accounts are mutually
consistent in every state reachable through the API. -/
theorem enrollmentMutual_reachable (db : DB) (h : Reachable db) :
    EnrollmentMutual db := by
  induction h with
  | init =>
      intro cid c uid u hc hu
      exact absurd hc (by simp [initDB, lookup])
  | step db op hr ih => exact em_applyOp db op ih

/-- Witness for `enrollmentMutual_reachable` on a trace that registers an
account, creates a course and enrolls the account. -/
theorem enrollmentMutual_reachable_witness : EnrollmentMutual c5Trace :=
  enrollmentMutual_reachable c5Trace
    (Reachable.step _ _ (Reachable.step _ _ (Reachable.step _ _ Reachable.init)))

/-- C6 counterexample: after a reachable partially failed course update
(categories supplied together with an oversized title), course 5 still
lists category 3 while category 3 no longer lists course 5, so the
biconditional fails in a reachable state produced by a course update. -/
theorem categoryMutual_reachable_refuted :
    ¬ (∀ db, Reachable db → CategoryMutual db) := by
  intro hall
  have hr : Reachable c6Trace :=
    Reachable.step _ _ (Reachable.step _ _ (Reachable.step _ _
      (Reachable.step _ _ (Reachable.step _ _ Reachable.init))))
  have h5 := hall c6Trace hr 5 courseAfterBadUpdate 3 catAfterBadUpdate
    (by decide) (by decide)
  have h3 : (3 : Nat) ∈ courseAfterBadUpdate.categories := by decide
  have h53 := h5.mp h3
  simp [catAfterBadUpdate] at h53

/-- Witness for `categoryMutual_preserved` at a registration step on the
empty store. -/
theorem categoryMutual_preserved_witness :
    CategoryMutual (applyOp initDB (Op.register bodyA)) :=
  categoryMutual_preserved initDB (Op.register bodyA)
    (fun cid c kid k hc _hk => absurd hc (by simp [initDB, lookup]))
    trivial

/-- C7: for an existing course and acting account, enrollment fails with
AlreadyEnrolled (400, state unchanged) iff the account is already in the
enrolled list, and otherwise adds the account to the course side and the
course (deduplicated) to the account side; unenrollment fails with
NotEnrolled (400, state unchanged) iff the account is absent, and
otherwise removes the reference from both sides. -/
theorem enroll_unenroll_toggle (db : DB) (pid cid : Nat) (pu : UserDoc)
    (c : CourseDoc)
    (hpu : lookup db.users pid = some pu)
    (hc : lookup db.courses cid = some c)
    (hcv : courseDocValid c = true) :
    (((enrollInCourse db pid cid).1 = CourseResult.alreadyEnrolled400
        ↔ pid ∈ c.enrolledStudents) ∧
     (pid ∈ c.enrolledStudents → (enrollInCourse db pid cid).2 = db) ∧
     (pid ∉ c.enrolledStudents →
       (enrollInCourse db pid cid).1 = CourseResult.enrolled200 cid ∧
       lookup (enrollInCourse db pid cid).2.courses cid
         = some { c with enrolledStudents := c.enrolledStudents ++ [pid] } ∧
       lookup (enrollInCourse db pid cid).2.users pid
         = some { pu with enrolledCourses := addToSet pu.enrolledCourses cid })) ∧
    (((unenrollFromCourse db pid cid).1 = CourseResult.notEnrolled400
        ↔ pid ∉ c.enrolledStudents) ∧
     (pid ∉ c.enrolledStudents → (unenrollFromCourse db pid cid).2 = db) ∧
     (pid ∈ c.enrolledStudents →
       (unenrollFromCourse db pid cid).1 = CourseResult.unenrolled200 cid ∧
       lookup (unenrollFromCourse db pid cid).2.courses cid
         = some { c with enrolledStudents := pull c.enrolledStudents pid } ∧
       lookup (unenrollFromCourse db pid cid).2.users pid
         = some { pu with enrolledCourses := pull pu.enrolledCourses cid })) := by
  have hcv1 : courseDocValid
      { c with enrolledStudents := c.enrolledStudents ++ [pid] } = true := by
    rw [courseDocValid_es]; exact hcv
  have hcv2 : courseDocValid
      { c with enrolledStudents := pull c.enrolledStudents pid } = true := by
    rw [courseDocValid_es]; exact hcv
  constructor
  · unfold enrollInCourse
    rw [hpu, hc]
    dsimp only
    by_cases hin : c.enrolledStudents.contains pid = true
    · rw [if_pos hin]
      have hmem := contains_iff.mp hin
      exact ⟨iff_of_true rfl hmem, fun _ => rfl, fun hn => absurd hmem hn⟩
    · rw [if_neg hin]
      have hmem := not_mem_of_contains_false (Bool.of_not_eq_true hin)
      rw [if_pos hcv1]
      refine ⟨iff_of_false (by simp) hmem, fun hmem2 => absurd hmem2 hmem, fun _ => ?_⟩
      refine ⟨rfl, ?_, ?_⟩
      · dsimp only
        rw [lookup_setById, if_pos rfl, hc]
        rfl
      · dsimp only
        rw [lookup_updateWhere, hpu]
        simp
  · unfold unenrollFromCourse
    rw [hpu, hc]
    dsimp only
    by_cases hin : c.enrolledStudents.contains pid = true
    · rw [if_neg (fun hcon => by rw [hin] at hcon; exact Bool.noConfusion hcon)]
      have hmem := contains_iff.mp hin
      rw [if_pos hcv2]
      refine ⟨iff_of_false (by simp) (fun hn => hn hmem),
        fun hn => absurd hmem hn, fun _ => ?_⟩
      refine ⟨rfl, ?_, ?_⟩
      · dsimp only
        rw [lookup_setById, if_pos rfl, hc]
        rfl
      · dsimp only
        rw [lookup_updateWhere, hpu]
        simp
    · rw [if_pos (by rw [Bool.of_not_eq_true hin]; rfl : (!c.enrolledStudents.contains pid) = true)]
      have hmem := not_mem_of_contains_false (Bool.of_not_eq_true hin)
      exact ⟨iff_of_true rfl hmem, fun _ => rfl, fun hmem2 => absurd hmem2 hmem⟩

/-- Witness for `enroll_unenroll_toggle` on the trace state: account 1 is
enrolled in course 3, so a second enroll returns AlreadyEnrolled with the
state unchanged, and an unenroll succeeds. -/
theorem enroll_unenroll_toggle_witness :
    (enrollInCourse c5Trace 1 3).1 = CourseResult.alreadyEnrolled400 ∧
    (enrollInCourse c5Trace 1 3).2 = c5Trace ∧
    (unenrollFromCourse c5Trace 1 3).1 = CourseResult.unenrolled200 3 := by
  have h := enroll_unenroll_toggle c5Trace 1 3 uTraceUser cTraceCourse
    (by decide) (by decide) (by decide)
  exact ⟨h.1.1.mpr (by decide), h.1.2.1 (by decide), (h.2.2.2 (by decide)).1⟩

/-- C9: a course created by an instructor or admin principal stores the
acting principal as its owning instructor, and any client-supplied
instructor field in the body is ignored, so bodies differing only in
that field yield identical outcomes. -/
theorem createCourse_sets_instructor (db : DB) (pid : Nat) (pu : UserDoc)
    (body : CourseBody)
    (hpu : lookup db.users pid = some pu)
    (hrole : pu.role = Role.instructor ∨ pu.role = Role.admin)
    (hv : (body.price.isSome && courseDocValid (mkCourseDoc pid body)) = true) :
    (createCourse db pid body).1 = CourseResult.created201 (freshId db) ∧
    lookup (createCourse db pid body).2.courses (freshId db)
      = some (mkCourseDoc pid body) ∧
    (mkCourseDoc pid body).instructor = pid ∧
    ∀ x, createCourse db pid { body with instructor := x }
      = createCourse db pid body := by
  have hrole2 : ¬ (decide (pu.role ≠ Role.instructor)
      && decide (pu.role ≠ Role.admin)) = true := by
    rcases hrole with h | h <;> simp [h]
  have hlook : ∀ extra : List (Nat × CategoryDoc) → List (Nat × CategoryDoc),
      lookup (db.courses ++ [(freshId db, mkCourseDoc pid body)]) (freshId db)
        = some (mkCourseDoc pid body) := by
    intro _
    rw [lookup_append_single, lookup_courses_fresh db]
    try dsimp only
    try rw [if_pos rfl]
  have hres : (createCourse db pid body).1 = CourseResult.created201 (freshId db) := by
    unfold createCourse
    rw [hpu]
    dsimp only
    rw [if_neg hrole2, if_pos hv]
  have hlook2 : lookup (createCourse db pid body).2.courses (freshId db)
      = some (mkCourseDoc pid body) := by
    unfold createCourse
    rw [hpu]
    dsimp only
    rw [if_neg hrole2, if_pos hv]
    cases hcats : body.categories with
    | none =>
        dsimp only
        exact hlook id
    | some l =>
        dsimp only
        cases hle : l.isEmpty with
        | true => exact hlook id
        | false => exact hlook id
  exact ⟨hres, hlook2, rfl, fun x => rfl⟩

/-- Witness for `createCourse_sets_instructor`: the registered instructor
(account 1) creates a plain course; the stored course lists account 1 as
its instructor, and a body carrying a client-supplied instructor field
produces the same outcome. -/
theorem createCourse_sets_instructor_witness :
    (createCourse dbInstr1 1 courseBodyPlain).1
      = CourseResult.created201 (freshId dbInstr1) ∧
    lookup (createCourse dbInstr1 1 courseBodyPlain).2.courses (freshId dbInstr1)
      = some (mkCourseDoc 1 courseBodyPlain) ∧
    (mkCourseDoc 1 courseBodyPlain).instructor = 1 ∧
    createCourse dbInstr1 1 { courseBodyPlain with instructor := some 99 }
      = createCourse dbInstr1 1 courseBodyPlain := by
  have h := createCourse_sets_instructor dbInstr1 1 uInstrDoc courseBodyPlain
    (by decide) (Or.inl (by decide)) (by decide)
  exact ⟨h.1, h.2.1, h.2.2.1, h.2.2.2 (some 99)⟩

end ELearn
